import Mathlib

/-!
Verification of the ProDash script resolution and execution engine.

The development shallowly embeds the two expansion engines present in the
source tree: the `ScriptExecutionService` (its `resolveScript`,
`resolveVariables`, `getSafePath` and `execute` members) and the model-layer
`Script.expandScriptCalls` / `Script.resolveVariable` / `Script.execute`
path, together with the `TerminalService` command sink (`runInTerminal`,
`getTerminal`).  Command lines and names are lists of characters; the
JavaScript regular expressions are embedded as explicit scanning functions
with the same left-to-right, greedy semantics.  Recursion in the engines is
made total with an explicit step budget; the budget case is a distinguished
error value and we prove it is never reached for the canonical budget.
-/

set_option maxRecDepth 20000

/-- Character strings, modelled as lists of characters. -/
abbrev Str := List Char

instance {α β : Type} [DecidableEq α] [DecidableEq β] : DecidableEq (Except α β) :=
  fun x y =>
    match x, y with
    | .error a, .error b =>
      if h : a = b then .isTrue (by rw [h]) else .isFalse (fun hc => by cases hc; exact h rfl)
    | .ok a, .ok b =>
      if h : a = b then .isTrue (by rw [h]) else .isFalse (fun hc => by cases hc; exact h rfl)
    | .error _, .ok _ => .isFalse (fun hc => by cases hc)
    | .ok _, .error _ => .isFalse (fun hc => by cases hc)

/-- Boolean substring test: does the first list occur contiguously inside
the second? -/
def containsSub (needle : Str) : Str → Bool
  | [] => needle.isPrefixOf []
  | c :: rest => needle.isPrefixOf (c :: rest) || containsSub needle rest

/-- Membership test mirroring JavaScript `Array.includes` on name arrays. -/
def memN (n : Str) : List Str → Bool
  | [] => false
  | m :: rest => n == m || memN n rest

/-- The literal text of the composition-directive prefix. -/
def runScriptPat : Str := "\x7b\x7bRUN_SCRIPT:".toList

/-- Scanner for the regular expression matching a composition directive:
an opening double brace, the text RUN_SCRIPT and a colon, one or more
characters other than a closing brace (captured, greedy), then a closing
double brace.  Returns the first capture, scanning left to right, exactly
as JavaScript `String.match` does without the global flag. -/
def matchRunScript : Str → Option Str
  | [] => none
  | c :: rest =>
    if runScriptPat.isPrefixOf (c :: rest) then
      let after := (c :: rest).drop runScriptPat.length
      let cap := after.takeWhile (fun ch => ch != '\x7d')
      if cap ≠ [] ∧ (after.drop cap.length).take 2 = ['\x7d', '\x7d'] then some cap
      else matchRunScript rest
    else matchRunScript rest

/-- Whitespace test used by JavaScript `String.trim`. -/
def isWsChar (c : Char) : Bool := c == ' ' || c == '\t' || c == '\n' || c == '\r'

/-- JavaScript `String.trim`: strip leading and trailing whitespace. -/
def trimL (l : Str) : Str := ((l.dropWhile isWsChar).reverse.dropWhile isWsChar).reverse

/-- The terminal kinds a script configuration may declare: the literal
strings batch and powershell, or the empty string. -/
inductive TK
  | batch
  | powershell
  | blank
deriving DecidableEq

/-- A script body is either a single command line or a list of lines. -/
inductive ScriptBody
  | single (line : Str)
  | multi (lines : List Str)
deriving DecidableEq

/-- `Array.isArray(script.script) ? script.script : [script.script]`. -/
def normalizeBody : ScriptBody → List Str
  | .single l => [l]
  | .multi ls => ls

/-- A script record: the fields of the configuration relevant to execution.
`terminal` is optional (absent models `undefined`). -/
structure ScriptR where
  name : Str
  terminal : Option TK := none
  body : ScriptBody
  hidden : Bool := false
deriving DecidableEq

/-- A project record: the path fields consumed by variable resolution.
Optional fields model `undefined` values. -/
structure ProjectR where
  name : Str
  path : Str
  proDashPath : Option Str := none
  descriptionFile : Option Str := none
  longDescriptionFile : Option Str := none
  fullDescriptionFile : Option Str := none
deriving DecidableEq

/-- Ambient state of the execution service: the global configuration
directory exposed by `ProjectService.globalConfigurationPath`. -/
structure Env where
  globalConfigPath : Str
deriving DecidableEq

/-- Ambient state of the model layer: `ExtensionContextService.projectsJsonPath`. -/
structure EnvM where
  projectsJsonPath : Str
deriving DecidableEq

/-- `script.terminal || 'default'`: the display and comparison string the
service resolver derives from an optional terminal kind; `undefined` and
the empty string are falsy and both map to the default kind. -/
def termDisplay : Option TK → Str
  | some .batch => "batch".toList
  | some .powershell => "powershell".toList
  | _ => "default".toList

/-- `script.terminal || ''`: the comparison string the model layer uses. -/
def termEff : Option TK → Str
  | some .batch => "batch".toList
  | some .powershell => "powershell".toList
  | _ => []

/-- Path normalization of `ScriptExecutionService.getSafePath`: an absent
or empty path yields the empty string, and backslashes are replaced by
forward slashes. -/
def slashify (c : Char) : Char := if c = '\\' then '/' else c

/-- `getSafePath`: empty string for undefined paths, separators normalized. -/
def getSafePath : Option Str → Str
  | none => []
  | some p => p.map slashify

/-- The literal placeholder token for a variable name. -/
def fallbackToken (nm : Str) : Str := "\x7b\x7b".toList ++ nm ++ "\x7d\x7d".toList

/-- The warning text logged for an unresolvable placeholder. -/
def warnVarMsg (nm : Str) : Str :=
  "Could not resolve variable \x27".toList ++ fallbackToken nm ++ "\x27".toList

/-- Character class of the service placeholder pattern: uppercase letters
and underscores. -/
def isVarCharS (c : Char) : Bool := (decide ('A' ≤ c) && decide (c ≤ 'Z')) || c == '_'

/-- Character class of the model-layer placeholder pattern (`\w`). -/
def isVarCharM (c : Char) : Bool := c.isAlphanum || c == '_'

/-- Head match of the placeholder pattern: an opening double brace, one or
more characters of the class `p` (captured, greedy), then a closing double
brace.  Returns the captured name and the text after the match. -/
def matchVarHead (p : Char → Bool) (l : Str) : Option (Str × Str) :=
  if l.take 2 = ['\x7b', '\x7b'] then
    let after := l.drop 2
    let nm := after.takeWhile p
    if nm ≠ [] ∧ (after.drop nm.length).take 2 = ['\x7d', '\x7d'] then
      some (nm, after.drop (nm.length + 2))
    else none
  else none

/-- One global replacement pass of the placeholder pattern, as JavaScript
`String.replace` with the global flag performs it: scan left to right,
replace each match by the resolver output and continue after the match,
never rescanning replaced text.  The resolver returns the replacement
text together with the warnings it logs.  The step budget is spent one
character or one match per step, so the length of the line is a
sufficient budget. -/
def substGo (resolve : Str → Str × List Str) (p : Char → Bool) : Nat → Str → Str × List Str
  | _, [] => ([], [])
  | 0, l => (l, [])
  | n + 1, c :: rest =>
    match matchVarHead p (c :: rest) with
    | some (nm, remainder) =>
      let repl := resolve nm
      let tail := substGo resolve p n remainder
      (repl.1 ++ tail.1, repl.2 ++ tail.2)
    | none =>
      let tail := substGo resolve p n rest
      (c :: tail.1, tail.2)

/-- The variable names captured by the scan, in order of replacement. -/
def scanVarNames (p : Char → Bool) : Nat → Str → List Str
  | _, [] => []
  | 0, _ => []
  | n + 1, c :: rest =>
    match matchVarHead p (c :: rest) with
    | some (nm, remainder) => nm :: scanVarNames p n remainder
    | none => scanVarNames p n rest

/-- The switch of `ScriptExecutionService.resolveVariables`: the six
recognized names map to safe project paths, anything else logs a warning
and keeps the literal token. -/
def resolveVarS (env : Env) (proj : ProjectR) (nm : Str) : Str × List Str :=
  if nm = "PROJECT_PATH".toList then (getSafePath (some proj.path), [])
  else if nm = "PRODASH_PATH".toList then (getSafePath proj.proDashPath, [])
  else if nm = "GLOBALCONFIG_PATH".toList then (getSafePath (some env.globalConfigPath), [])
  else if nm = "DESCRIPTION_FILE".toList then (getSafePath proj.descriptionFile, [])
  else if nm = "LONGDESCRIPTION_FILE".toList then (getSafePath proj.longDescriptionFile, [])
  else if nm = "FULLDESCRIPTION_FILE".toList then (getSafePath proj.fullDescriptionFile, [])
  else (fallbackToken nm, [warnVarMsg nm])

/-- Whether the service resolver recognizes a name. -/
def isKnownS (nm : Str) : Bool :=
  nm == "PROJECT_PATH".toList || nm == "PRODASH_PATH".toList ||
  nm == "GLOBALCONFIG_PATH".toList || nm == "DESCRIPTION_FILE".toList ||
  nm == "LONGDESCRIPTION_FILE".toList || nm == "FULLDESCRIPTION_FILE".toList

/-- `ScriptExecutionService.resolveVariables`: replace every placeholder
occurrence in a command line, returning the resolved line and the logged
warnings. -/
def resolveVariables (env : Env) (proj : ProjectR) (line : Str) : Str × List Str :=
  substGo (resolveVarS env proj) isVarCharS line.length line

/-- The switch of the model-layer `Script.resolveVariable`: raw project
paths with the literal token as fallback, no separator normalization. -/
def resolveVarM (em : EnvM) (projOpt : Option ProjectR) (nm : Str) : Str × List Str :=
  if nm = "PROJECT_PATH".toList then
    ((projOpt.map ProjectR.path).getD (fallbackToken nm), [])
  else if nm = "PRODASH_PATH".toList then
    ((projOpt.bind ProjectR.proDashPath).getD (fallbackToken nm), [])
  else if nm = "DESCRIPTION_FILE".toList then
    ((projOpt.bind ProjectR.descriptionFile).getD (fallbackToken nm), [])
  else if nm = "LONGDESCRIPTION_FILE".toList then
    ((projOpt.bind ProjectR.longDescriptionFile).getD (fallbackToken nm), [])
  else if nm = "GROUPS_PATH".toList then
    (if em.projectsJsonPath = [] then fallbackToken nm else em.projectsJsonPath, [])
  else (fallbackToken nm, [warnVarMsg nm])

/-- The model-layer `Script.replaceVariablesInScript` on one line. -/
def replaceVariablesInScript (em : EnvM) (projOpt : Option ProjectR) (line : Str) : Str × List Str :=
  substGo (resolveVarM em projOpt) isVarCharM line.length line

/-- Failures of `ScriptExecutionService.resolveScript`.  `outOfFuel` is the
artificial budget-exhaustion value of the embedding; it is proved
unreachable for the canonical budget. -/
inductive RErr
  | recursiveCall (name : Str)
  | notFound (scriptName : Str) (projectName : Str)
  | mismatch (parentName : Str) (parentTerm : Str) (childName : Str) (childTerm : Str)
  | outOfFuel
deriving DecidableEq

/-- The message carried by each thrown `Error` of the service resolver. -/
def rerrMessage : RErr → Str
  | .recursiveCall n =>
    "Recursive script execution detected: \"".toList ++ n ++ "\" was called again.".toList
  | .notFound s p =>
    "Script \"".toList ++ s ++ "\" not found in project \"".toList ++ p ++ "\".".toList
  | .mismatch a ta b tb =>
    "Script \"".toList ++ a ++ "\" (terminal: ".toList ++ ta ++
      ") cannot call script \"".toList ++ b ++ "\" (terminal: ".toList ++ tb ++
      "). Terminal types must match.".toList
  | .outOfFuel => "out of fuel".toList

/-- The loop body of `ScriptExecutionService.resolveScript` over the
normalized command lines of the current script.  Each directive line is
looked up in the full project script list, checked for terminal
compatibility, then — exactly as the recursive `resolveScript` entry does —
checked against the call stack and expanded with the child name pushed
onto a copy of the stack.  Non-directive lines get variable resolution.
The budget is spent once per recursive descent. -/
def expandLines (scripts : List ScriptR) (env : Env) (proj : ProjectR) :
    Nat → ScriptR → List Str → List Str → Except RErr (List Str)
  | 0, _, _, _ => .error .outOfFuel
  | _ + 1, _, _, [] => .ok []
  | n + 1, cur, seen, cmd :: rest =>
    match matchRunScript cmd with
    | some cap =>
      match scripts.find? (fun s => s.name == cap) with
      | none => .error (.notFound cap proj.name)
      | some next =>
        if termDisplay cur.terminal ≠ termDisplay next.terminal then
          .error (.mismatch cur.name (termDisplay cur.terminal) next.name
            (termDisplay next.terminal))
        else if memN next.name seen then
          .error (.recursiveCall next.name)
        else
          match expandLines scripts env proj n next (seen ++ [next.name])
              (normalizeBody next.body) with
          | .error e => .error e
          | .ok nested =>
            match expandLines scripts env proj n cur seen rest with
            | .error e => .error e
            | .ok tail => .ok (nested ++ tail)
    | none =>
      match expandLines scripts env proj n cur seen rest with
      | .error e => .error e
      | .ok tail => .ok ((resolveVariables env proj cmd).1 :: tail)

/-- `ScriptExecutionService.resolveScript`: fail if the script is already
on the call stack, otherwise push its name and process its lines. -/
def resolveScript (scripts : List ScriptR) (env : Env) (proj : ProjectR)
    (fuel : Nat) (script : ScriptR) (seen : List Str) : Except RErr (List Str) :=
  if memN script.name seen then .error (.recursiveCall script.name)
  else expandLines scripts env proj fuel script (seen ++ [script.name]) (normalizeBody script.body)

/-- Weight of one script for the budget computation. -/
def bodyW (s : ScriptR) : Nat := (normalizeBody s.body).length + 1

/-- Total weight of a script list. -/
def sumW (l : List ScriptR) : Nat := (l.map bodyW).sum

/-- The canonical budget: strictly more than the total weight of the
project scripts plus the root body, which bounds the recursion depth. -/
def fuelFor (scripts : List ScriptR) (root : ScriptR) : Nat :=
  (normalizeBody root.body).length + sumW scripts + 1

/-- Top-level expansion: `resolveScript` with an empty call stack and the
canonical budget. -/
def resolveScriptRun (scripts : List ScriptR) (env : Env) (proj : ProjectR)
    (root : ScriptR) : Except RErr (List Str) :=
  resolveScript scripts env proj (fuelFor scripts root) root []

/-- Failures of the model-layer `Script.expandScriptCalls`: the only thrown
error is the terminal-type mismatch; `outOfFuelM` is the artificial budget
value of the embedding. -/
inductive MErr
  | mismatchM
  | outOfFuelM
deriving DecidableEq

/-- JavaScript `Array.join(' -> ')`. -/
def joinArrow : List Str → Str
  | [] => []
  | [x] => x
  | x :: y :: rest => x ++ " -> ".toList ++ joinArrow (y :: rest)

/-- The error text logged when the model layer detects a circular call. -/
def cycleLogMsg (stack : List Str) (nm : Str) : Str :=
  "Circular script call detected: ".toList ++ joinArrow stack ++ " -> ".toList ++ nm

/-- The error text logged when the model layer cannot find a script. -/
def notFoundLogMsg (nm : Str) : Str :=
  "Script \x27".toList ++ nm ++ "\x27 not found.".toList

/-- The model-layer `Script.expandScriptCalls`: the captured directive name
is trimmed; a name already on the call stack logs the chain and is
skipped; a missing script is logged and skipped; a terminal mismatch
against the root script throws; otherwise the called body is expanded
with the name pushed onto a copy of the stack.  Returns the flat lines
and the logged error messages in order. -/
def expandScriptCalls (scripts : List ScriptR) (root : ScriptR) :
    Nat → List Str → List Str → Except MErr (List Str × List Str)
  | 0, _, _ => .error .outOfFuelM
  | _ + 1, [], _ => .ok ([], [])
  | n + 1, line :: rest, stack =>
    match matchRunScript line with
    | some cap =>
      let nm := trimL cap
      if memN nm stack then
        match expandScriptCalls scripts root n rest stack with
        | .error e => .error e
        | .ok tail => .ok (tail.1, cycleLogMsg stack nm :: tail.2)
      else
        match scripts.find? (fun s => s.name == nm) with
        | some called =>
          if termEff root.terminal ≠ termEff called.terminal then .error .mismatchM
          else
            match expandScriptCalls scripts root n (normalizeBody called.body)
                (stack ++ [nm]) with
            | .error e => .error e
            | .ok child =>
              match expandScriptCalls scripts root n rest stack with
              | .error e => .error e
              | .ok tail => .ok (child.1 ++ tail.1, child.2 ++ tail.2)
        | none =>
          match expandScriptCalls scripts root n rest stack with
          | .error e => .error e
          | .ok tail => .ok (tail.1, notFoundLogMsg nm :: tail.2)
    | none =>
      match expandScriptCalls scripts root n rest stack with
      | .error e => .error e
      | .ok tail => .ok (line :: tail.1, tail.2)

/-- Top-level model-layer expansion with the canonical budget. -/
def expandScriptCallsRun (scripts : List ScriptR) (root : ScriptR) :
    Except MErr (List Str × List Str) :=
  expandScriptCalls scripts root (fuelFor scripts root) (normalizeBody root.body) []

/-- Display of an exit code in the failure message: `e.exitCode ?? 'undefined'`. -/
def codeDisplay : Option Int → Str
  | some n => (toString n).toList
  | none => "undefined".toList

/-- The message of the rejection raised for a failed command. -/
def cmdFailMsg (line : Str) (code : Option Int) : Str :=
  "Command \"".toList ++ line ++ "\" exited with code ".toList ++ codeDisplay code ++ ".".toList

/-- The shell-integration loop of `TerminalService.runInTerminal`: each
command is executed and its completion awaited; exit code zero continues,
anything else (including an indeterminate code) rejects and stops the
loop.  `exit j` is the exit code reported for the `j`-th executed
command.  Returns the commands actually sent and, if one failed, its
index, text and code. -/
def runSink (exit : Nat → Option Int) : List Str → List Str × Option (Nat × Str × Option Int)
  | [] => ([], none)
  | l :: rest =>
    if exit 0 = some 0 then
      let tail := runSink (fun j => exit (j + 1)) rest
      (l :: tail.1, tail.2.map (fun f => (f.1 + 1, f.2)))
    else ([l], some (0, l, exit 0))

/-- `TerminalService.runInTerminal` (shell-integration aware service): with
integration every command is gated on the previous exit code; without it
every line is sent fire-and-forget. -/
def runInTerminal (integ : Bool) (exit : Nat → Option Int) (lines : List Str) :
    List Str × Option (Nat × Str × Option Int) :=
  if integ then runSink exit lines else (lines, none)

/-- The starting log line of `ScriptExecutionService.execute`. -/
def execStartMsg (sname pname : Str) : Str :=
  "Executing script \"".toList ++ sname ++ "\" for project \"".toList ++ pname ++ "\"...".toList

/-- The error log line of `ScriptExecutionService.execute`. -/
def execFailMsg (sname detail : Str) : Str :=
  "Failed to execute script \"".toList ++ sname ++ "\": ".toList ++ detail

/-- Failures surfaced by `ScriptExecutionService.execute`: an expansion
error or a command failure from the sink. -/
inductive ExecErr
  | expansion (e : RErr)
  | command (idx : Nat) (line : Str) (code : Option Int)
deriving DecidableEq

/-- `ScriptExecutionService.execute`: expand, then run the flat command
list in the terminal; on any failure log it and re-throw it to the
invoker.  Returns the log lines and the outcome the caller observes. -/
def executeService (scripts : List ScriptR) (env : Env) (proj : ProjectR)
    (integ : Bool) (exit : Nat → Option Int) (root : ScriptR) :
    List Str × Except ExecErr Unit :=
  match resolveScriptRun scripts env proj root with
  | .error e =>
    ([execStartMsg root.name proj.name, execFailMsg root.name (rerrMessage e)],
      .error (.expansion e))
  | .ok cmds =>
    match (runInTerminal integ exit cmds).2 with
    | some f =>
      ([execStartMsg root.name proj.name, execFailMsg root.name (cmdFailMsg f.2.1 f.2.2)],
        .error (.command f.1 f.2.1 f.2.2))
    | none => ([execStartMsg root.name proj.name], .ok ())

/-- The abort log line of the model-layer `Script.execute` catch clause. -/
def abortMsg (sname : Str) : Str :=
  "Execution of script \x27".toList ++ sname ++ "\x27 aborted.".toList

/-- The model-layer `Script.execute`: expand, substitute variables into the
flat lines, and send them to the fire-and-forget terminal service; every
thrown error is caught and only logged, so the caller always observes a
normal return.  Returns the logged error lines, the lines sent, and the
outcome the caller observes. -/
def executeModel (scripts : List ScriptR) (em : EnvM) (projOpt : Option ProjectR)
    (root : ScriptR) : List Str × List Str × Except MErr Unit :=
  match expandScriptCallsRun scripts root with
  | .error .mismatchM => ([abortMsg root.name], [], .ok ())
  | .error .outOfFuelM => ([], [], .ok ())
  | .ok (lines, logs) =>
    (logs, lines.map (fun l => (replaceVariablesInScript em projOpt l).1), .ok ())

/-- The terminal name chosen by `TerminalService.getTerminal`: a dedicated
PowerShell runner for the powershell kind, one shared runner for
everything else. -/
def terminalNameFor (t : Option TK) : Str :=
  if t = some TK.powershell then "ProDash Runner (PowerShell)".toList else "ProDash Runner".toList

/-- An existing terminal: its name and whether it has exited. -/
structure TermInfo where
  name : Str
  exited : Bool
deriving DecidableEq

/-- The selection made by `getTerminal`. -/
inductive TermSel
  | reuse (t : TermInfo)
  | create (name : Str)
deriving DecidableEq

/-- `TerminalService.getTerminal`: find a live terminal with the chosen
name, else create one with that name. -/
def getTerminal (existing : List TermInfo) (t : Option TK) : TermSel :=
  match existing.find? (fun ti => ti.name == terminalNameFor t && !ti.exited) with
  | some ti => .reuse ti
  | none => .create (terminalNameFor t)

/-- A directive-only command line for a given target name. -/
def dirLine (nm : Str) : Str := runScriptPat ++ nm ++ ['\x7d', '\x7d']

/-! ### Basic list lemmas -/

lemma takeWhile_append_all {p : Char → Bool} (xs ys : Str) (h : ∀ c ∈ xs, p c = true) :
    (xs ++ ys).takeWhile p = xs ++ ys.takeWhile p := by
  induction xs with
  | nil => rfl
  | cons x xs ih =>
    have hx : p x = true := h x (by simp)
    rw [List.cons_append, List.takeWhile_cons, hx, if_pos rfl, List.cons_append,
      ih (fun c hc => h c (by simp [hc]))]

lemma takeWhile_drop_decomp {p : Char → Bool} (l : Str) :
    l = l.takeWhile p ++ l.drop (l.takeWhile p).length := by
  induction l with
  | nil => rfl
  | cons c r ih =>
    by_cases hc : p c
    · simpa [List.takeWhile_cons, hc] using ih
    · simp [List.takeWhile_cons, hc]

lemma memN_append (x : Str) (a b : List Str) : memN x (a ++ b) = (memN x a || memN x b) := by
  induction a with
  | nil => simp [memN]
  | cons y a ih => simp [memN, ih, Bool.or_assoc]

lemma isPrefixOf_append_self (l t : Str) : l.isPrefixOf (l ++ t) = true := by
  induction l with
  | nil => simp [List.isPrefixOf]
  | cons c r ih => simp [List.isPrefixOf, ih]

/-! ### Matcher lemmas -/

lemma matchRunScript_cons (c : Char) (rest : Str) :
    matchRunScript (c :: rest) =
      if runScriptPat.isPrefixOf (c :: rest) then
        let after := (c :: rest).drop runScriptPat.length
        let cap := after.takeWhile (fun ch => ch != '\x7d')
        if cap ≠ [] ∧ (after.drop cap.length).take 2 = ['\x7d', '\x7d'] then some cap
        else matchRunScript rest
      else matchRunScript rest := rfl

lemma matchRunScript_dirLine (nm : Str) (hne : nm ≠ [])
    (hbr : ∀ c ∈ nm, c ≠ '\x7d') :
    matchRunScript (dirLine nm) = some nm := by
  have hshape : dirLine nm = '\x7b' :: ("\x7bRUN_SCRIPT:".toList ++ nm ++ ['\x7d', '\x7d']) := rfl
  have hassoc : dirLine nm = runScriptPat ++ (nm ++ ['\x7d', '\x7d']) := by
    simp [dirLine, List.append_assoc]
  have hpre : runScriptPat.isPrefixOf (dirLine nm) = true := by
    rw [hassoc]; exact isPrefixOf_append_self _ _
  have hdrop : (dirLine nm).drop runScriptPat.length = nm ++ ['\x7d', '\x7d'] := by
    rw [hassoc]; exact List.drop_left _ _
  have htw : (nm ++ ['\x7d', '\x7d']).takeWhile (fun ch => ch != '\x7d') = nm := by
    rw [takeWhile_append_all nm _ (fun c hc => by simp [bne_iff_ne, hbr c hc])]
    simp [List.takeWhile_cons]
  have hcond : nm ≠ [] ∧ ((nm ++ ['\x7d', '\x7d']).drop nm.length).take 2 = ['\x7d', '\x7d'] :=
    ⟨hne, by rw [List.drop_left]; rfl⟩
  rw [hshape, matchRunScript_cons, ← hshape]
  rw [if_pos hpre]
  simp only [hdrop, htw]
  rw [if_pos hcond]

lemma matchVarHead_some {p : Char → Bool} {l nm rem : Str}
    (h : matchVarHead p l = some (nm, rem)) :
    l = '\x7b' :: '\x7b' :: (nm ++ '\x7d' :: '\x7d' :: rem) ∧ nm ≠ [] ∧ ∀ c ∈ nm, p c = true := by
  simp only [matchVarHead] at h
  split_ifs at h with h1 h2
  · have hpair := Option.some.inj h
    have h3 : (l.drop 2).takeWhile p = nm := congrArg Prod.fst hpair
    have h4 : (l.drop 2).drop (((l.drop 2).takeWhile p).length + 2) = rem :=
      congrArg Prod.snd hpair
    obtain ⟨hnil, htk⟩ := h2
    rw [h3] at htk h4 hnil
    refine ⟨?_, hnil, fun c hc => List.mem_takeWhile_imp (p := p) (by rw [h3]; exact hc)⟩
    have hstep2 : l.drop 2 = nm ++ (l.drop 2).drop nm.length := by
      conv_lhs => rw [takeWhile_drop_decomp (p := p) (l.drop 2)]
      rw [h3]
    have hstep3 : (l.drop 2).drop nm.length
        = '\x7d' :: '\x7d' :: ((l.drop 2).drop nm.length).drop 2 := by
      conv_lhs => rw [← List.take_append_drop 2 ((l.drop 2).drop nm.length)]
      rw [htk]
      rfl
    have hstep4 : ((l.drop 2).drop nm.length).drop 2 = rem := by
      rw [List.drop_drop, h4]
    rw [← List.take_append_drop 2 l, h1, hstep2, hstep3, hstep4]
    rfl

/-! ### Substitution lemmas -/

lemma substGo_fallback (r : Str → Str × List Str) (p : Char → Bool) (w : Str → Str) :
    ∀ n l, l.length ≤ n →
      (∀ nm ∈ scanVarNames p n l, r nm = (fallbackToken nm, [w nm])) →
      substGo r p n l = (l, (scanVarNames p n l).map w) := by
  intro n
  induction n with
  | zero =>
    intro l hl _
    have hnil : l = [] := List.eq_nil_of_length_eq_zero (Nat.le_zero.mp hl)
    subst hnil
    rfl
  | succ n ih =>
    intro l hl hres
    cases l with
    | nil => rfl
    | cons c rest =>
      cases hm : matchVarHead p (c :: rest) with
      | none =>
        have hrest : rest.length ≤ n := by
          simp only [List.length_cons] at hl
          omega
        have hscan : scanVarNames p (n + 1) (c :: rest) = scanVarNames p n rest := by
          simp only [scanVarNames, hm]
        have ihr := ih rest hrest (fun nm hnm => hres nm (by rw [hscan]; exact hnm))
        simp only [substGo, hm, ihr, hscan]
      | some pr =>
        obtain ⟨nm, rem⟩ := pr
        obtain ⟨hshape, hnnil, -⟩ := matchVarHead_some hm
        have hscan : scanVarNames p (n + 1) (c :: rest) = nm :: scanVarNames p n rem := by
          simp only [scanVarNames, hm]
        have hlen : rem.length ≤ n := by
          have hsh := congrArg List.length hshape
          have hpos : 0 < nm.length := List.length_pos.mpr hnnil
          simp only [List.length_cons, List.length_append] at hsh hl ⊢
          omega
        have hresr : ∀ x ∈ scanVarNames p n rem, r x = (fallbackToken x, [w x]) :=
          fun x hx => hres x (by rw [hscan]; exact List.mem_cons_of_mem _ hx)
        have ihr := ih rem hlen hresr
        have hr : r nm = (fallbackToken nm, [w nm]) := hres nm (by rw [hscan]; simp)
        simp only [substGo, hm, hr, ihr, hscan, List.map_cons]
        refine Prod.ext ?_ rfl
        rw [hshape]
        simp [fallbackToken, List.append_assoc]

lemma resolveVarS_unknown (env : Env) (proj : ProjectR) (nm : Str) (h : isKnownS nm = false) :
    resolveVarS env proj nm = (fallbackToken nm, [warnVarMsg nm]) := by
  simp only [isKnownS, Bool.or_eq_false_iff, beq_eq_false_iff_ne] at h
  obtain ⟨⟨⟨⟨⟨h1, h2⟩, h3⟩, h4⟩, h5⟩, h6⟩ := h
  simp only [resolveVarS]
  rw [if_neg h1, if_neg h2, if_neg h3, if_neg h4, if_neg h5, if_neg h6]

lemma resolveVariables_unknown_only (env : Env) (proj : ProjectR) (l : Str)
    (h : ∀ nm ∈ scanVarNames isVarCharS l.length l, isKnownS nm = false) :
    resolveVariables env proj l = (l, (scanVarNames isVarCharS l.length l).map warnVarMsg) :=
  substGo_fallback _ _ _ _ _ (le_refl _) (fun nm hnm => resolveVarS_unknown env proj nm (h nm hnm))

/-! ### Budget sufficiency for the service resolver -/

lemma sumW_cons (a : ScriptR) (l : List ScriptR) : sumW (a :: l) = bodyW a + sumW l := by
  simp [sumW]

lemma sumW_filter_le (p : ScriptR → Bool) (l : List ScriptR) :
    sumW (l.filter p) ≤ sumW l := by
  induction l with
  | nil => exact le_refl _
  | cons s l ih =>
    by_cases hs : p s
    · simp only [List.filter_cons, hs, if_pos, sumW_cons]
      omega
    · simp only [List.filter_cons, hs, Bool.false_eq_true, if_false, sumW_cons]
      omega

lemma sumW_filter_imp (p q : ScriptR → Bool) (h : ∀ s, p s = true → q s = true)
    (l : List ScriptR) : sumW (l.filter p) ≤ sumW (l.filter q) := by
  induction l with
  | nil => exact le_refl _
  | cons s l ih =>
    by_cases hs : p s
    · have hq : q s = true := h s hs
      simp only [List.filter_cons, hs, hq, if_pos, sumW_cons]
      omega
    · by_cases hq : q s
      · simp only [List.filter_cons, hs, hq, Bool.false_eq_true, if_false, if_pos, sumW_cons]
        omega
      · simp only [List.filter_cons, hs, hq, Bool.false_eq_true, if_false]
        exact ih

lemma sumW_filter_remove (nx : ScriptR) (p : ScriptR → Bool) :
    ∀ l : List ScriptR, nx ∈ l → p nx = true →
      sumW (l.filter (fun s => p s && !(s.name == nx.name))) + bodyW nx ≤ sumW (l.filter p) := by
  intro l
  induction l with
  | nil => intro h; cases h
  | cons s l ih =>
    intro hmem hp
    rcases List.mem_cons.mp hmem with heq | htail
    · subst heq
      have hq : ¬ ((fun s => p s && !(s.name == nx.name)) nx = true) := by simp
      rw [List.filter_cons_of_neg (p := fun s => p s && !(s.name == nx.name)) hq,
        List.filter_cons_of_pos hp, sumW_cons]
      have hle : sumW (l.filter (fun s => p s && !(s.name == nx.name))) ≤ sumW (l.filter p) :=
        sumW_filter_imp _ _ (fun t ht => by
          simp only [Bool.and_eq_true] at ht
          exact ht.1) l
      omega
    · have ihl := ih htail hp
      by_cases hps : p s = true
      · by_cases hns : (s.name == nx.name) = true
        · have hq : ¬ ((fun s => p s && !(s.name == nx.name)) s = true) := by simp [hns]
          rw [List.filter_cons_of_neg (p := fun s => p s && !(s.name == nx.name)) hq,
            List.filter_cons_of_pos hps, sumW_cons]
          omega
        · have hns2 : (s.name == nx.name) = false := by simpa using hns
          have hq : (fun s => p s && !(s.name == nx.name)) s = true := by simp [hps, hns2]
          rw [List.filter_cons_of_pos (p := fun s => p s && !(s.name == nx.name)) hq,
            List.filter_cons_of_pos hps, sumW_cons, sumW_cons]
          omega
      · have hq : ¬ ((fun s => p s && !(s.name == nx.name)) s = true) := by simp [hps]
        rw [List.filter_cons_of_neg (p := fun s => p s && !(s.name == nx.name)) hq,
          List.filter_cons_of_neg hps]
        exact ihl

/-- The measure bounding the remaining work of `expandLines`. -/
def weightOf (scripts : List ScriptR) (seen : List Str) (lines : List Str) : Nat :=
  lines.length + sumW (scripts.filter (fun s => !(memN s.name seen)))

lemma memN_snoc_not (seen : List Str) (nm : Str) (s : ScriptR) :
    (!(memN s.name (seen ++ [nm]))) = (!(memN s.name seen) && !(s.name == nm)) := by
  rw [memN_append]
  simp [memN, Bool.not_or]

lemma weight_child_lt (scripts : List ScriptR) (seen : List Str) (rest : List Str)
    (next : ScriptR) (n : Nat) (dirCmd : Str) (hmem : next ∈ scripts)
    (hns : memN next.name seen = false)
    (hw : weightOf scripts seen (dirCmd :: rest) < n + 1) :
    weightOf scripts (seen ++ [next.name]) (normalizeBody next.body) < n := by
  have hfe : scripts.filter (fun s => !(memN s.name (seen ++ [next.name])))
      = scripts.filter (fun s => !(memN s.name seen) && !(s.name == next.name)) := by
    apply List.filter_congr
    intro s _
    exact memN_snoc_not seen next.name s
  have hrem := sumW_filter_remove next (fun s => !(memN s.name seen)) scripts hmem
    (by simp [hns])
  simp only [weightOf, List.length_cons, bodyW] at hw hrem ⊢
  rw [hfe]
  omega

lemma expandLines_ne_outOfFuel (scripts : List ScriptR) (env : Env) (proj : ProjectR) :
    ∀ n cur seen lines, weightOf scripts seen lines < n →
      expandLines scripts env proj n cur seen lines ≠ .error .outOfFuel := by
  intro n
  induction n with
  | zero =>
    intro cur seen lines h
    exact absurd h (Nat.not_lt_zero _)
  | succ n ih =>
    intro cur seen lines hw
    cases lines with
    | nil => simp [expandLines]
    | cons cmd rest =>
      have hwrest : weightOf scripts seen rest < n := by
        simp only [weightOf, List.length_cons] at hw ⊢
        omega
      cases hm : matchRunScript cmd with
      | none =>
        simp only [expandLines, hm]
        cases hrec : expandLines scripts env proj n cur seen rest with
        | error e =>
          intro hc
          injection hc with he
          exact ih cur seen rest hwrest (by rw [hrec, he])
        | ok tail => simp
      | some cap =>
        cases hf : scripts.find? (fun s => s.name == cap) with
        | none => simp [expandLines, hm, hf]
        | some next =>
          simp only [expandLines, hm, hf]
          by_cases ht : termDisplay cur.terminal ≠ termDisplay next.terminal
          · rw [if_pos ht]
            simp
          · rw [if_neg ht]
            by_cases hcyc : memN next.name seen = true
            · simp [hcyc]
            · have hns : memN next.name seen = false := by simpa using hcyc
              rw [if_neg (by simp [hns])]
              have hmem := List.mem_of_find?_eq_some hf
              have hwchild := weight_child_lt scripts seen rest next n cmd hmem hns hw
              cases hrec1 : expandLines scripts env proj n next (seen ++ [next.name])
                  (normalizeBody next.body) with
              | error e =>
                intro hc
                injection hc with he
                exact ih next (seen ++ [next.name]) (normalizeBody next.body) hwchild
                  (by rw [hrec1, he])
              | ok nested =>
                cases hrec2 : expandLines scripts env proj n cur seen rest with
                | error e =>
                  intro hc
                  injection hc with he
                  exact ih cur seen rest hwrest (by rw [hrec2, he])
                | ok tail => simp

lemma resolveScriptRun_ne_outOfFuel (scripts : List ScriptR) (env : Env) (proj : ProjectR)
    (root : ScriptR) : resolveScriptRun scripts env proj root ≠ .error .outOfFuel := by
  unfold resolveScriptRun resolveScript
  have hmem : memN root.name [] = false := rfl
  rw [if_neg (by simp [hmem])]
  apply expandLines_ne_outOfFuel
  have hle := sumW_filter_le (fun s => !(memN s.name ([] ++ [root.name]))) scripts
  simp only [weightOf, fuelFor]
  omega

lemma expandLines_ok_mem (scripts : List ScriptR) (env : Env) (proj : ProjectR) :
    ∀ n cur seen lines out, expandLines scripts env proj n cur seen lines = .ok out →
      ∀ c ∈ out, ∃ l, matchRunScript l = none ∧ c = (resolveVariables env proj l).1 := by
  intro n
  induction n with
  | zero =>
    intro cur seen lines out h
    simp [expandLines] at h
  | succ n ih =>
    intro cur seen lines out h
    cases lines with
    | nil =>
      simp only [expandLines] at h
      have hout : out = [] := (Except.ok.inj h).symm
      subst hout
      intro c hc
      cases hc
    | cons cmd rest =>
      cases hm : matchRunScript cmd with
      | none =>
        simp only [expandLines, hm] at h
        cases hrec : expandLines scripts env proj n cur seen rest with
        | error e => rw [hrec] at h; cases h
        | ok tail =>
          rw [hrec] at h
          have hout := Except.ok.inj h
          subst hout
          intro c hc
          rcases List.mem_cons.mp hc with hceq | htl
          · exact ⟨cmd, hm, hceq⟩
          · exact ih cur seen rest tail hrec c htl
      | some cap =>
        cases hf : scripts.find? (fun s => s.name == cap) with
        | none => simp [expandLines, hm, hf] at h
        | some next =>
          simp only [expandLines, hm, hf] at h
          by_cases ht : termDisplay cur.terminal ≠ termDisplay next.terminal
          · rw [if_pos ht] at h; cases h
          · rw [if_neg ht] at h
            by_cases hcyc : memN next.name seen = true
            · rw [if_pos (by simp [hcyc])] at h; cases h
            · rw [if_neg (by simpa using hcyc)] at h
              cases hrec1 : expandLines scripts env proj n next (seen ++ [next.name])
                  (normalizeBody next.body) with
              | error e => rw [hrec1] at h; cases h
              | ok nested =>
                rw [hrec1] at h
                cases hrec2 : expandLines scripts env proj n cur seen rest with
                | error e => rw [hrec2] at h; cases h
                | ok tail =>
                  rw [hrec2] at h
                  have hout := Except.ok.inj h
                  subst hout
                  intro c hc
                  rcases List.mem_append.mp hc with hn | htl
                  · exact ih next (seen ++ [next.name]) (normalizeBody next.body) nested hrec1 c hn
                  · exact ih cur seen rest tail hrec2 c htl

lemma resolveScriptRun_ok_mem (scripts : List ScriptR) (env : Env) (proj : ProjectR)
    (root : ScriptR) (out : List Str) (h : resolveScriptRun scripts env proj root = .ok out) :
    ∀ c ∈ out, ∃ l, matchRunScript l = none ∧ c = (resolveVariables env proj l).1 := by
  unfold resolveScriptRun resolveScript at h
  rw [if_neg (by simp [memN])] at h
  exact expandLines_ok_mem scripts env proj _ root _ _ out h

/-! ### Step lemmas for symbolic expansion traces -/

lemma dropWhile_all_false (p : Char → Bool) (l : Str) (h : ∀ c ∈ l, p c = false) :
    l.dropWhile p = l := by
  cases l with
  | nil => rfl
  | cons c r => simp [List.dropWhile_cons, h c (by simp)]

lemma trimL_id (l : Str) (h : ∀ c ∈ l, isWsChar c = false) : trimL l = l := by
  rw [trimL, dropWhile_all_false _ _ h,
    dropWhile_all_false _ _ (fun c hc => h c (List.mem_reverse.mp hc)), List.reverse_reverse]

lemma resolveScript_not_seen (scripts : List ScriptR) (env : Env) (proj : ProjectR)
    (fuel : Nat) (script : ScriptR) (seen : List Str) (h : memN script.name seen = false) :
    resolveScript scripts env proj fuel script seen
      = expandLines scripts env proj fuel script (seen ++ [script.name])
          (normalizeBody script.body) := by
  unfold resolveScript
  rw [if_neg (by simp [h])]

lemma expandLines_plain (scripts : List ScriptR) (env : Env) (proj : ProjectR)
    (n : Nat) (cur : ScriptR) (seen : List Str) (cmd : Str) (rest : List Str)
    (hm : matchRunScript cmd = none) :
    expandLines scripts env proj (n + 1) cur seen (cmd :: rest)
      = match expandLines scripts env proj n cur seen rest with
        | .error e => .error e
        | .ok tail => .ok ((resolveVariables env proj cmd).1 :: tail) := by
  simp only [expandLines, hm]

lemma expandLines_dir_ok (scripts : List ScriptR) (env : Env) (proj : ProjectR)
    (n : Nat) (cur : ScriptR) (seen : List Str) (cmd : Str) (rest : List Str)
    (cap : Str) (next : ScriptR)
    (hm : matchRunScript cmd = some cap)
    (hf : scripts.find? (fun s => s.name == cap) = some next)
    (ht : termDisplay cur.terminal = termDisplay next.terminal)
    (hc : memN next.name seen = false) :
    expandLines scripts env proj (n + 1) cur seen (cmd :: rest)
      = match expandLines scripts env proj n next (seen ++ [next.name])
            (normalizeBody next.body) with
        | .error e => .error e
        | .ok nested =>
          match expandLines scripts env proj n cur seen rest with
          | .error e => .error e
          | .ok tail => .ok (nested ++ tail) := by
  simp only [expandLines, hm, hf]
  rw [if_neg (fun hne => hne ht), if_neg (by simp [hc])]

lemma expandLines_dir_cycle (scripts : List ScriptR) (env : Env) (proj : ProjectR)
    (n : Nat) (cur : ScriptR) (seen : List Str) (cmd : Str) (rest : List Str)
    (cap : Str) (next : ScriptR)
    (hm : matchRunScript cmd = some cap)
    (hf : scripts.find? (fun s => s.name == cap) = some next)
    (ht : termDisplay cur.terminal = termDisplay next.terminal)
    (hc : memN next.name seen = true) :
    expandLines scripts env proj (n + 1) cur seen (cmd :: rest)
      = .error (.recursiveCall next.name) := by
  simp only [expandLines, hm, hf]
  rw [if_neg (fun hne => hne ht), if_pos hc]

lemma expandLines_dir_mismatch (scripts : List ScriptR) (env : Env) (proj : ProjectR)
    (n : Nat) (cur : ScriptR) (seen : List Str) (cmd : Str) (rest : List Str)
    (cap : Str) (next : ScriptR)
    (hm : matchRunScript cmd = some cap)
    (hf : scripts.find? (fun s => s.name == cap) = some next)
    (ht : termDisplay cur.terminal ≠ termDisplay next.terminal) :
    expandLines scripts env proj (n + 1) cur seen (cmd :: rest)
      = .error (.mismatch cur.name (termDisplay cur.terminal) next.name
          (termDisplay next.terminal)) := by
  simp only [expandLines, hm, hf]
  rw [if_pos ht]

lemma expandLines_dir_notFound (scripts : List ScriptR) (env : Env) (proj : ProjectR)
    (n : Nat) (cur : ScriptR) (seen : List Str) (cmd : Str) (rest : List Str) (cap : Str)
    (hm : matchRunScript cmd = some cap)
    (hf : scripts.find? (fun s => s.name == cap) = none) :
    expandLines scripts env proj (n + 1) cur seen (cmd :: rest)
      = .error (.notFound cap proj.name) := by
  simp only [expandLines, hm, hf]

lemma expandM_plain (scripts : List ScriptR) (root : ScriptR) (n : Nat)
    (line : Str) (rest : List Str) (stack : List Str)
    (hm : matchRunScript line = none) :
    expandScriptCalls scripts root (n + 1) (line :: rest) stack
      = match expandScriptCalls scripts root n rest stack with
        | .error e => .error e
        | .ok tail => .ok (line :: tail.1, tail.2) := by
  simp only [expandScriptCalls, hm]

lemma expandM_cycle (scripts : List ScriptR) (root : ScriptR) (n : Nat)
    (line : Str) (rest : List Str) (stack : List Str) (cap : Str)
    (hm : matchRunScript line = some cap)
    (hc : memN (trimL cap) stack = true) :
    expandScriptCalls scripts root (n + 1) (line :: rest) stack
      = match expandScriptCalls scripts root n rest stack with
        | .error e => .error e
        | .ok tail => .ok (tail.1, cycleLogMsg stack (trimL cap) :: tail.2) := by
  simp only [expandScriptCalls, hm]
  rw [if_pos hc]

lemma expandM_notFound (scripts : List ScriptR) (root : ScriptR) (n : Nat)
    (line : Str) (rest : List Str) (stack : List Str) (cap : Str)
    (hm : matchRunScript line = some cap)
    (hc : memN (trimL cap) stack = false)
    (hf : scripts.find? (fun s => s.name == trimL cap) = none) :
    expandScriptCalls scripts root (n + 1) (line :: rest) stack
      = match expandScriptCalls scripts root n rest stack with
        | .error e => .error e
        | .ok tail => .ok (tail.1, notFoundLogMsg (trimL cap) :: tail.2) := by
  simp only [expandScriptCalls, hm, hf]
  rw [if_neg (by simp [hc])]

lemma expandM_dir_ok (scripts : List ScriptR) (root : ScriptR) (n : Nat)
    (line : Str) (rest : List Str) (stack : List Str) (cap : Str) (called : ScriptR)
    (hm : matchRunScript line = some cap)
    (hc : memN (trimL cap) stack = false)
    (hf : scripts.find? (fun s => s.name == trimL cap) = some called)
    (ht : termEff root.terminal = termEff called.terminal) :
    expandScriptCalls scripts root (n + 1) (line :: rest) stack
      = match expandScriptCalls scripts root n (normalizeBody called.body)
            (stack ++ [trimL cap]) with
        | .error e => .error e
        | .ok child =>
          match expandScriptCalls scripts root n rest stack with
          | .error e => .error e
          | .ok tail => .ok (child.1 ++ tail.1, child.2 ++ tail.2) := by
  simp only [expandScriptCalls, hm, hf]
  rw [if_neg (by simp [hc]), if_neg (fun hne => hne ht)]

lemma expandM_mismatch (scripts : List ScriptR) (root : ScriptR) (n : Nat)
    (line : Str) (rest : List Str) (stack : List Str) (cap : Str) (called : ScriptR)
    (hm : matchRunScript line = some cap)
    (hc : memN (trimL cap) stack = false)
    (hf : scripts.find? (fun s => s.name == trimL cap) = some called)
    (ht : termEff root.terminal ≠ termEff called.terminal) :
    expandScriptCalls scripts root (n + 1) (line :: rest) stack = .error .mismatchM := by
  simp only [expandScriptCalls, hm, hf]
  rw [if_neg (by simp [hc]), if_pos ht]

lemma containsSub_cons (needle : Str) (c : Char) (rest : Str) :
    containsSub needle (c :: rest) = (needle.isPrefixOf (c :: rest) || containsSub needle rest) :=
  rfl

lemma containsSub_at (x a y : Str) : containsSub a (x ++ (a ++ y)) = true := by
  induction x with
  | nil =>
    cases a with
    | nil =>
      cases y with
      | nil => simp [containsSub, List.isPrefixOf]
      | cons c r => simp [containsSub, List.isPrefixOf]
    | cons c a' =>
      rw [List.nil_append]
      rw [show (c :: a') ++ y = c :: (a' ++ y) from rfl, containsSub_cons,
        ← show (c :: a') ++ y = c :: (a' ++ y) from rfl, isPrefixOf_append_self]
      rfl
  | cons c x' ih =>
    rw [List.cons_append, containsSub_cons, ih, Bool.or_true]

/-! ### The two-script cycle family -/

/-- Script A of the cycle family: its only line calls B. -/
def cycA (a b : Str) : ScriptR := { name := a, body := .multi [dirLine b] }

/-- Script B of the cycle family: its only line calls A. -/
def cycB (a b : Str) : ScriptR := { name := b, body := .multi [dirLine a] }

/-- The cyclic project script set. -/
def cycScripts (a b : Str) : List ScriptR := [cycA a b, cycB a b]

lemma cyc_service_trace (a b : Str) (env : Env) (proj : ProjectR)
    (ha1 : a ≠ []) (ha2 : ∀ c ∈ a, c ≠ '\x7d')
    (hb1 : b ≠ []) (hb2 : ∀ c ∈ b, c ≠ '\x7d')
    (hab : a ≠ b) :
    ∀ n, expandLines (cycScripts a b) env proj ((n + 1) + 1) (cycA a b) [a] [dirLine b]
        = .error (.recursiveCall a) := by
  intro n
  have hmb : matchRunScript (dirLine b) = some b := matchRunScript_dirLine b hb1 hb2
  have hma : matchRunScript (dirLine a) = some a := matchRunScript_dirLine a ha1 ha2
  have hBA : (a == b) = false := beq_eq_false_iff_ne.mpr hab
  have hAB : (b == a) = false := beq_eq_false_iff_ne.mpr (Ne.symm hab)
  have hfB : (cycScripts a b).find? (fun s => s.name == b) = some (cycB a b) := by
    simp [cycScripts, cycA, cycB, List.find?, hBA]
  have hfA : (cycScripts a b).find? (fun s => s.name == a) = some (cycA a b) := by
    simp [cycScripts, cycA, cycB, List.find?]
  rw [expandLines_dir_ok _ _ _ _ _ _ _ _ _ _ hmb hfB
      (show termDisplay (cycA a b).terminal = termDisplay (cycB a b).terminal from rfl)
      (show memN (cycB a b).name [a] = false by simp [cycB, memN, hAB])]
  rw [show normalizeBody (cycB a b).body = [dirLine a] from rfl,
    show [a] ++ [(cycB a b).name] = [a, b] from rfl]
  rw [expandLines_dir_cycle _ _ _ _ _ _ _ _ _ _ hma hfA
      (show termDisplay (cycB a b).terminal = termDisplay (cycA a b).terminal from rfl)
      (show memN (cycA a b).name [a, b] = true by simp [cycA, memN])]
  rfl

lemma cyc_model_trace (a b : Str)
    (ha1 : a ≠ []) (ha2 : ∀ c ∈ a, c ≠ '\x7d') (ha3 : ∀ c ∈ a, isWsChar c = false)
    (hb1 : b ≠ []) (hb2 : ∀ c ∈ b, c ≠ '\x7d') (hb3 : ∀ c ∈ b, isWsChar c = false)
    (hab : a ≠ b) :
    ∀ n, expandScriptCalls (cycScripts a b) (cycA a b) ((((n + 1) + 1) + 1) + 1) [dirLine b] []
        = .ok ([], [cycleLogMsg [b, a] b]) := by
  intro n
  have hmb : matchRunScript (dirLine b) = some b := matchRunScript_dirLine b hb1 hb2
  have hma : matchRunScript (dirLine a) = some a := matchRunScript_dirLine a ha1 ha2
  have hta : trimL a = a := trimL_id a ha3
  have htb : trimL b = b := trimL_id b hb3
  have hBA : (a == b) = false := beq_eq_false_iff_ne.mpr hab
  have hAB : (b == a) = false := beq_eq_false_iff_ne.mpr (Ne.symm hab)
  have hfB : (cycScripts a b).find? (fun s => s.name == trimL b) = some (cycB a b) := by
    rw [htb]; simp [cycScripts, cycA, cycB, List.find?, hBA]
  have hfA : (cycScripts a b).find? (fun s => s.name == trimL a) = some (cycA a b) := by
    rw [hta]; simp [cycScripts, cycA, cycB, List.find?]
  rw [expandM_dir_ok _ _ _ _ _ _ _ _ hmb
      (show memN (trimL b) [] = false from rfl) hfB
      (show termEff (cycA a b).terminal = termEff (cycB a b).terminal from rfl)]
  rw [show normalizeBody (cycB a b).body = [dirLine a] from rfl,
    show ([] : List Str) ++ [trimL b] = [trimL b] from rfl, htb]
  rw [expandM_dir_ok _ _ _ _ _ _ _ _ hma
      (show memN (trimL a) [b] = false by rw [hta]; simp only [memN, hBA, Bool.or_false]) hfA
      (show termEff (cycA a b).terminal = termEff (cycA a b).terminal from rfl)]
  rw [show normalizeBody (cycA a b).body = [dirLine b] from rfl, hta,
    show [b] ++ [a] = [b, a] from rfl]
  rw [expandM_cycle _ _ _ _ _ _ _ hmb
      (show memN (trimL b) [b, a] = true by rw [htb]; simp [memN])]
  rw [htb]
  rfl

/-- A sample service environment. -/
def demoEnv : Env := { globalConfigPath := "/home/user/.prodash".toList }

/-- A sample model-layer environment. -/
def demoEnvM : EnvM := { projectsJsonPath := "/home/user/.prodash/projects.jsonc".toList }

/-- A sample project. -/
def demoProj : ProjectR := { name := "Proj".toList, path := "C:\\work\\proj".toList }

/-- Claim C1: for scripts A and B referencing each other, the service
resolver fails with an error that names the re-entered script (though not
the rest of the chain) and is surfaced to the caller, terminating at the
canonical budget; the model-layer expander instead detects the cycle one
level deeper, logs the rotated chain B -> A -> B in full, and skips the
directive so that expansion succeeds with an empty result. -/
theorem c1_cycle_reentry_amended (a b : Str) (env : Env) (proj : ProjectR)
    (ha1 : a ≠ []) (ha2 : ∀ c ∈ a, c ≠ '\x7d') (ha3 : ∀ c ∈ a, isWsChar c = false)
    (hb1 : b ≠ []) (hb2 : ∀ c ∈ b, c ≠ '\x7d') (hb3 : ∀ c ∈ b, isWsChar c = false)
    (hab : a ≠ b) :
    resolveScriptRun (cycScripts a b) env proj (cycA a b) = .error (.recursiveCall a)
    ∧ containsSub a (rerrMessage (.recursiveCall a)) = true
    ∧ expandScriptCallsRun (cycScripts a b) (cycA a b) = .ok ([], [cycleLogMsg [b, a] b])
    ∧ containsSub (joinArrow [b, a, b]) (cycleLogMsg [b, a] b) = true := by
  refine ⟨?_, ?_, ?_, ?_⟩
  · show resolveScript (cycScripts a b) env proj (fuelFor (cycScripts a b) (cycA a b))
      (cycA a b) [] = _
    rw [resolveScript_not_seen _ _ _ _ _ _
      (show memN (cycA a b).name [] = false from rfl)]
    exact cyc_service_trace a b env proj ha1 ha2 hb1 hb2 hab 4
  · exact containsSub_at ("Recursive script execution detected: \"".toList) a
      ("\" was called again.".toList)
  · show expandScriptCalls (cycScripts a b) (cycA a b)
      (fuelFor (cycScripts a b) (cycA a b)) (normalizeBody (cycA a b).body) [] = _
    exact cyc_model_trace a b ha1 ha2 ha3 hb1 hb2 hb3 hab 2
  · have hmsg : cycleLogMsg [b, a] b
        = "Circular script call detected: ".toList ++ (joinArrow [b, a, b] ++ []) := by
      simp [cycleLogMsg, joinArrow, List.append_assoc]
    rw [hmsg]
    exact containsSub_at _ _ _

/-- Witness for C1 at the concrete cyclic pair A, B. -/
theorem c1_cycle_reentry_witness :
    resolveScriptRun (cycScripts ("A".toList) ("B".toList)) demoEnv demoProj
        (cycA ("A".toList) ("B".toList)) = .error (.recursiveCall ("A".toList))
    ∧ containsSub ("A".toList) (rerrMessage (.recursiveCall ("A".toList))) = true
    ∧ expandScriptCallsRun (cycScripts ("A".toList) ("B".toList)) (cycA ("A".toList) ("B".toList))
        = .ok ([], [cycleLogMsg [("B".toList), ("A".toList)] ("B".toList)])
    ∧ containsSub (joinArrow [("B".toList), ("A".toList), ("B".toList)])
        (cycleLogMsg [("B".toList), ("A".toList)] ("B".toList)) = true :=
  c1_cycle_reentry_amended ("A".toList) ("B".toList) demoEnv demoProj
    (by decide) (by decide) (by decide) (by decide) (by decide) (by decide) (by decide)

/-- Counterexample to C1 as stated: at the concrete cycle A -> B -> A the
service resolver does throw, but its message does not name the full chain
(the name B never appears in it), and the model-layer expander does not
fail at all — it returns successfully, so the condition is not surfaced
to the caller there. -/
theorem c1_cycle_reentry_counterexample :
    resolveScriptRun (cycScripts ("A".toList) ("B".toList)) demoEnv demoProj
        (cycA ("A".toList) ("B".toList)) = .error (.recursiveCall ("A".toList))
    ∧ containsSub ("B".toList) (rerrMessage (.recursiveCall ("A".toList))) = false
    ∧ expandScriptCallsRun (cycScripts ("A".toList) ("B".toList)) (cycA ("A".toList) ("B".toList))
        = .ok ([], [cycleLogMsg [("B".toList), ("A".toList)] ("B".toList)]) := by
  refine ⟨by decide, by decide, by decide⟩

/-! ### Demo scripts (the specification scenario) -/

/-- The scenario root script: echo, compose Lint, start. -/
def startScript : ScriptR :=
  { name := "Start".toList,
    body := .multi ["echo hi".toList, dirLine ("Lint".toList), "npm run start".toList] }

/-- The hidden Lint script of the scenario. -/
def lintScript : ScriptR :=
  { name := "Lint".toList, body := .multi ["npm run lint".toList], hidden := true }

/-- The scenario script set. -/
def demoScripts : List ScriptR := [startScript, lintScript]

/-- A script whose only line materializes a directive-shaped token through
variable substitution. -/
def injectScript : ScriptR :=
  { name := "A".toList, body := .multi ["\x7b\x7bRU\x7b\x7bPROJECT_PATH\x7d\x7d\x7d\x7d".toList] }

/-- A project whose path completes the directive-shaped token. -/
def injectProj : ProjectR := { name := "P".toList, path := "N_SCRIPT:x".toList }

/-- Claim C2: service expansion always terminates — the canonical budget is
never exhausted, cyclic graphs fail with an error rather than looping —
and every line of a successful expansion is the variable substitution of
a non-directive source line, so no directive line is ever emitted
literally.  (A directive-shaped token can still appear in the output when
substitution itself materializes one, which is why the claim as stated is
corrected.) -/
theorem c2_termination_flat_output_amended :
    (∀ (scripts : List ScriptR) (env : Env) (proj : ProjectR) (root : ScriptR),
      resolveScriptRun scripts env proj root ≠ .error .outOfFuel)
    ∧ (∀ (scripts : List ScriptR) (env : Env) (proj : ProjectR) (root : ScriptR)
        (out : List Str), resolveScriptRun scripts env proj root = .ok out →
        ∀ c ∈ out, ∃ l, matchRunScript l = none ∧ c = (resolveVariables env proj l).1) :=
  ⟨resolveScriptRun_ne_outOfFuel, resolveScriptRun_ok_mem⟩

/-- Witness for C2 on the specification scenario: Start composing hidden
Lint expands to the three flat commands, the budget is not exhausted, and
the spliced line is the substitution of a non-directive line. -/
theorem c2_termination_flat_output_witness :
    resolveScriptRun demoScripts demoEnv demoProj startScript
        = .ok ["echo hi".toList, "npm run lint".toList, "npm run start".toList]
    ∧ resolveScriptRun demoScripts demoEnv demoProj startScript ≠ .error .outOfFuel
    ∧ (∃ l, matchRunScript l = none
        ∧ "npm run lint".toList = (resolveVariables demoEnv demoProj l).1) :=
  ⟨by decide,
    c2_termination_flat_output_amended.1 demoScripts demoEnv demoProj startScript,
    c2_termination_flat_output_amended.2 demoScripts demoEnv demoProj startScript
      ["echo hi".toList, "npm run lint".toList, "npm run start".toList] (by decide)
      ("npm run lint".toList) (by decide)⟩

/-- Counterexample to C2 as stated: an acyclic, directive-free script
whose line carries a nested placeholder materializes a directive-shaped
token through substitution, so the successful expansion output contains a
matching RUN_SCRIPT token. -/
theorem c2_termination_flat_output_counterexample :
    resolveScriptRun [injectScript] demoEnv injectProj injectScript
        = .ok ["\x7b\x7bRUN_SCRIPT:x\x7d\x7d".toList]
    ∧ matchRunScript ("\x7b\x7bRUN_SCRIPT:x\x7d\x7d".toList) = some ("x".toList) := by
  refine ⟨by decide, by decide⟩

/-! ### Terminal mismatch family -/

/-- A plain command line with no placeholder and no directive. -/
def echoLine : Str := "npm run lint".toList

/-- A caller script with undefined terminal whose only line calls `b`. -/
def callerScript (a b : Str) : ScriptR := { name := a, body := .multi [dirLine b] }

/-- A target script declaring the batch terminal. -/
def batchTarget (b : Str) : ScriptR :=
  { name := b, terminal := some .batch, body := .multi [echoLine] }

/-- A target script with undefined terminal. -/
def plainTarget (b : Str) : ScriptR := { name := b, body := .multi [echoLine] }

lemma mismatch_message_names (a ta b tb : Str) :
    containsSub a (rerrMessage (.mismatch a ta b tb)) = true
    ∧ containsSub ta (rerrMessage (.mismatch a ta b tb)) = true
    ∧ containsSub b (rerrMessage (.mismatch a ta b tb)) = true
    ∧ containsSub tb (rerrMessage (.mismatch a ta b tb)) = true := by
  refine ⟨?_, ?_, ?_, ?_⟩
  · rw [show rerrMessage (.mismatch a ta b tb)
        = "Script \"".toList ++ (a ++ ("\" (terminal: ".toList ++ (ta ++
          (") cannot call script \"".toList ++ (b ++ ("\" (terminal: ".toList ++ (tb ++
            "). Terminal types must match.".toList)))))))
      from by simp [rerrMessage, List.append_assoc]]
    exact containsSub_at _ _ _
  · rw [show rerrMessage (.mismatch a ta b tb)
        = ("Script \"".toList ++ (a ++ "\" (terminal: ".toList)) ++ (ta ++
          (") cannot call script \"".toList ++ (b ++ ("\" (terminal: ".toList ++ (tb ++
            "). Terminal types must match.".toList)))))
      from by simp [rerrMessage, List.append_assoc]]
    exact containsSub_at _ _ _
  · rw [show rerrMessage (.mismatch a ta b tb)
        = ("Script \"".toList ++ (a ++ ("\" (terminal: ".toList ++ (ta ++
            ") cannot call script \"".toList)))) ++ (b ++ ("\" (terminal: ".toList ++ (tb ++
          "). Terminal types must match.".toList)))
      from by simp [rerrMessage, List.append_assoc]]
    exact containsSub_at _ _ _
  · rw [show rerrMessage (.mismatch a ta b tb)
        = ("Script \"".toList ++ (a ++ ("\" (terminal: ".toList ++ (ta ++
            (") cannot call script \"".toList ++ (b ++ "\" (terminal: ".toList)))))) ++ (tb ++
          "). Terminal types must match.".toList)
      from by simp [rerrMessage, List.append_assoc]]
    exact containsSub_at _ _ _

lemma mm_service_trace (a b : Str) (env : Env) (proj : ProjectR)
    (hb1 : b ≠ []) (hb2 : ∀ c ∈ b, c ≠ '\x7d') (hab : a ≠ b) :
    ∀ n, expandLines [callerScript a b, batchTarget b] env proj (n + 1)
        (callerScript a b) [a] [dirLine b]
      = .error (.mismatch a ("default".toList) b ("batch".toList)) := by
  intro n
  have hmb : matchRunScript (dirLine b) = some b := matchRunScript_dirLine b hb1 hb2
  have hBA : (a == b) = false := beq_eq_false_iff_ne.mpr hab
  have hfB : ([callerScript a b, batchTarget b]).find? (fun s => s.name == b)
      = some (batchTarget b) := by
    simp [callerScript, batchTarget, List.find?, hBA]
  rw [expandLines_dir_mismatch _ _ _ _ _ _ _ _ _ _ hmb hfB
      (show termDisplay (callerScript a b).terminal ≠ termDisplay (batchTarget b).terminal
        from fun h => by simp [callerScript, batchTarget, termDisplay] at h)]
  rfl

lemma ok_service_trace (a b : Str) (env : Env) (proj : ProjectR)
    (hb1 : b ≠ []) (hb2 : ∀ c ∈ b, c ≠ '\x7d') (hab : a ≠ b) :
    ∀ n, expandLines [callerScript a b, plainTarget b] env proj (((n + 1) + 1) + 1)
        (callerScript a b) [a] [dirLine b]
      = .ok [echoLine] := by
  intro n
  have hmb : matchRunScript (dirLine b) = some b := matchRunScript_dirLine b hb1 hb2
  have hBA : (a == b) = false := beq_eq_false_iff_ne.mpr hab
  have hfB : ([callerScript a b, plainTarget b]).find? (fun s => s.name == b)
      = some (plainTarget b) := by
    simp [callerScript, plainTarget, List.find?, hBA]
  have hsub : (resolveVariables env proj echoLine).1 = echoLine :=
    congrArg Prod.fst (resolveVariables_unknown_only env proj echoLine (by decide))
  rw [expandLines_dir_ok _ _ _ _ _ _ _ _ _ _ hmb hfB
      (show termDisplay (callerScript a b).terminal = termDisplay (plainTarget b).terminal
        from rfl)
      (show memN (plainTarget b).name [a] = false by
        simp only [plainTarget, memN, beq_eq_false_iff_ne.mpr (Ne.symm hab), Bool.or_false])]
  rw [show normalizeBody (plainTarget b).body = [echoLine] from rfl,
    show [a] ++ [(plainTarget b).name] = [a, b] from rfl]
  rw [expandLines_plain _ _ _ _ _ _ _ _ (show matchRunScript echoLine = none by decide)]
  rw [hsub]
  rfl

/-- Claim C4: composing a script with an undefined terminal into a batch
target fails with the terminal-mismatch error naming both script names and
both effective kinds (undefined shown as default); the same composition
with both terminals undefined succeeds. -/
theorem c4_terminal_mismatch (a b : Str) (env : Env) (proj : ProjectR)
    (hb1 : b ≠ []) (hb2 : ∀ c ∈ b, c ≠ '\x7d') (hab : a ≠ b) :
    resolveScriptRun [callerScript a b, batchTarget b] env proj (callerScript a b)
        = .error (.mismatch a ("default".toList) b ("batch".toList))
    ∧ containsSub a (rerrMessage (.mismatch a ("default".toList) b ("batch".toList))) = true
    ∧ containsSub b (rerrMessage (.mismatch a ("default".toList) b ("batch".toList))) = true
    ∧ containsSub ("default".toList)
        (rerrMessage (.mismatch a ("default".toList) b ("batch".toList))) = true
    ∧ containsSub ("batch".toList)
        (rerrMessage (.mismatch a ("default".toList) b ("batch".toList))) = true
    ∧ resolveScriptRun [callerScript a b, plainTarget b] env proj (callerScript a b)
        = .ok [echoLine] := by
  obtain ⟨hca, hct, hcb, hctb⟩ := mismatch_message_names a ("default".toList) b ("batch".toList)
  refine ⟨?_, hca, hcb, hct, hctb, ?_⟩
  · show resolveScript _ env proj (fuelFor [callerScript a b, batchTarget b] (callerScript a b))
      (callerScript a b) [] = _
    rw [resolveScript_not_seen _ _ _ _ _ _
      (show memN (callerScript a b).name [] = false from rfl)]
    exact mm_service_trace a b env proj hb1 hb2 hab 5
  · show resolveScript _ env proj (fuelFor [callerScript a b, plainTarget b] (callerScript a b))
      (callerScript a b) [] = _
    rw [resolveScript_not_seen _ _ _ _ _ _
      (show memN (callerScript a b).name [] = false from rfl)]
    exact ok_service_trace a b env proj hb1 hb2 hab 3

/-- Witness for C4 at concrete scripts A (undefined terminal) and B. -/
theorem c4_terminal_mismatch_witness :
    resolveScriptRun [callerScript ("A".toList) ("B".toList), batchTarget ("B".toList)]
        demoEnv demoProj (callerScript ("A".toList) ("B".toList))
        = .error (.mismatch ("A".toList) ("default".toList) ("B".toList) ("batch".toList))
    ∧ resolveScriptRun [callerScript ("A".toList) ("B".toList), plainTarget ("B".toList)]
        demoEnv demoProj (callerScript ("A".toList) ("B".toList))
        = .ok [echoLine] :=
  ⟨(c4_terminal_mismatch ("A".toList) ("B".toList) demoEnv demoProj
      (by decide) (by decide) (by decide)).1,
    (c4_terminal_mismatch ("A".toList) ("B".toList) demoEnv demoProj
      (by decide) (by decide) (by decide)).2.2.2.2.2⟩

/-! ### Sibling-branch family -/

/-- The common ancestor: composes both siblings. -/
def sibRoot (p c d : Str) : ScriptR := { name := p, body := .multi [dirLine c, dirLine d] }

/-- A sibling branch: composes the shared script. -/
def sibMid (nm e : Str) : ScriptR := { name := nm, body := .multi [dirLine e] }

/-- The shared leaf script. -/
def sibLeaf (e : Str) : ScriptR := { name := e, body := .multi [echoLine] }

/-- The sibling-branch project script set. -/
def sibScripts (p c d e : Str) : List ScriptR :=
  [sibRoot p c d, sibMid c e, sibMid d e, sibLeaf e]

/-- Claim C5: two sibling branches referencing the same non-cyclic script
from a common ancestor expand successfully — each branch receives its own
copy of the call stack, so the shared reference is never reported as a
cycle and the leaf is spliced once per branch. -/
theorem c5_sibling_branches_no_false_cycle (p c d e : Str) (env : Env) (proj : ProjectR)
    (hc1 : c ≠ []) (hc2 : ∀ x ∈ c, x ≠ '\x7d')
    (hd1 : d ≠ []) (hd2 : ∀ x ∈ d, x ≠ '\x7d')
    (he1 : e ≠ []) (he2 : ∀ x ∈ e, x ≠ '\x7d')
    (hpc : p ≠ c) (hpd : p ≠ d) (hpe : p ≠ e)
    (hcd : c ≠ d) (hce : c ≠ e) (hde : d ≠ e) :
    resolveScriptRun (sibScripts p c d e) env proj (sibRoot p c d)
      = .ok [echoLine, echoLine] := by
  have hmc : matchRunScript (dirLine c) = some c := matchRunScript_dirLine c hc1 hc2
  have hmd : matchRunScript (dirLine d) = some d := matchRunScript_dirLine d hd1 hd2
  have hme : matchRunScript (dirLine e) = some e := matchRunScript_dirLine e he1 he2
  have hE : matchRunScript echoLine = none := by decide
  have bpc : (p == c) = false := beq_eq_false_iff_ne.mpr hpc
  have bpd : (p == d) = false := beq_eq_false_iff_ne.mpr hpd
  have bpe : (p == e) = false := beq_eq_false_iff_ne.mpr hpe
  have bcd : (c == d) = false := beq_eq_false_iff_ne.mpr hcd
  have bce : (c == e) = false := beq_eq_false_iff_ne.mpr hce
  have bde : (d == e) = false := beq_eq_false_iff_ne.mpr hde
  have bcp : (c == p) = false := beq_eq_false_iff_ne.mpr (Ne.symm hpc)
  have bdp : (d == p) = false := beq_eq_false_iff_ne.mpr (Ne.symm hpd)
  have bep : (e == p) = false := beq_eq_false_iff_ne.mpr (Ne.symm hpe)
  have bdc : (d == c) = false := beq_eq_false_iff_ne.mpr (Ne.symm hcd)
  have bec : (e == c) = false := beq_eq_false_iff_ne.mpr (Ne.symm hce)
  have bed : (e == d) = false := beq_eq_false_iff_ne.mpr (Ne.symm hde)
  have hfc : (sibScripts p c d e).find? (fun s => s.name == c) = some (sibMid c e) := by
    simp [sibScripts, sibRoot, sibMid, sibLeaf, List.find?, bpc]
  have hfd : (sibScripts p c d e).find? (fun s => s.name == d) = some (sibMid d e) := by
    simp [sibScripts, sibRoot, sibMid, sibLeaf, List.find?, bpd, bcd]
  have hfe : (sibScripts p c d e).find? (fun s => s.name == e) = some (sibLeaf e) := by
    simp [sibScripts, sibRoot, sibMid, sibLeaf, List.find?, bpe, bce, bde]
  have hsub : (resolveVariables env proj echoLine).1 = echoLine :=
    congrArg Prod.fst (resolveVariables_unknown_only env proj echoLine (by decide))
  show resolveScript _ env proj (fuelFor (sibScripts p c d e) (sibRoot p c d))
      (sibRoot p c d) [] = _
  rw [resolveScript_not_seen _ _ _ _ _ _
    (show memN (sibRoot p c d).name [] = false from rfl)]
  show expandLines (sibScripts p c d e) env proj (((((7 + 1) + 1) + 1) + 1) + 1)
      (sibRoot p c d) [p] [dirLine c, dirLine d] = _
  rw [expandLines_dir_ok _ _ _ _ _ _ _ _ _ _ hmc hfc
      (show termDisplay (sibRoot p c d).terminal = termDisplay (sibMid c e).terminal from rfl)
      (show memN (sibMid c e).name [p] = false by
        simp only [sibMid, memN, bcp, Bool.or_false])]
  rw [show normalizeBody (sibMid c e).body = [dirLine e] from rfl,
    show [p] ++ [(sibMid c e).name] = [p, c] from rfl]
  rw [expandLines_dir_ok _ _ _ _ _ _ _ _ _ _ hme hfe
      (show termDisplay (sibMid c e).terminal = termDisplay (sibLeaf e).terminal from rfl)
      (show memN (sibLeaf e).name [p, c] = false by
        simp only [sibLeaf, memN, bep, bec, Bool.or_false])]
  rw [show normalizeBody (sibLeaf e).body = [echoLine] from rfl,
    show [p, c] ++ [(sibLeaf e).name] = [p, c, e] from rfl]
  rw [expandLines_plain _ _ _ _ _ _ _ _ hE]
  rw [expandLines_dir_ok _ _ _ _ _ _ _ _ _ _ hmd hfd
      (show termDisplay (sibRoot p c d).terminal = termDisplay (sibMid d e).terminal from rfl)
      (show memN (sibMid d e).name [p] = false by
        simp only [sibMid, memN, bdp, Bool.or_false])]
  rw [show normalizeBody (sibMid d e).body = [dirLine e] from rfl,
    show [p] ++ [(sibMid d e).name] = [p, d] from rfl]
  rw [expandLines_dir_ok _ _ _ _ _ _ _ _ _ _ hme hfe
      (show termDisplay (sibMid d e).terminal = termDisplay (sibLeaf e).terminal from rfl)
      (show memN (sibLeaf e).name [p, d] = false by
        simp only [sibLeaf, memN, bep, bed, Bool.or_false])]
  rw [show normalizeBody (sibLeaf e).body = [echoLine] from rfl,
    show [p, d] ++ [(sibLeaf e).name] = [p, d, e] from rfl]
  rw [expandLines_plain _ _ _ _ _ _ _ _ hE]
  rw [hsub]
  rfl

/-- Witness for C5 at the concrete scripts P, C, D, E. -/
theorem c5_sibling_branches_witness :
    resolveScriptRun (sibScripts ("P".toList) ("C".toList) ("D".toList) ("E".toList))
        demoEnv demoProj (sibRoot ("P".toList) ("C".toList) ("D".toList))
      = .ok [echoLine, echoLine] :=
  c5_sibling_branches_no_false_cycle ("P".toList) ("C".toList) ("D".toList) ("E".toList)
    demoEnv demoProj (by decide) (by decide) (by decide) (by decide) (by decide) (by decide)
    (by decide) (by decide) (by decide) (by decide) (by decide) (by decide)

/-! ### Directive-name trimming and lookup family -/

/-- A directive target name wrapped in surrounding spaces. -/
def spTarget (b : Str) : Str := ' ' :: (b ++ [' '])

/-- A root script whose directive carries surrounding whitespace in the name. -/
def spRoot (a b : Str) : ScriptR := { name := a, body := .multi [dirLine (spTarget b)] }

/-- A hidden target script. -/
def hidTarget (b : Str) : ScriptR := { name := b, body := .multi [echoLine], hidden := true }

lemma ne_spaced (x tail : Str) (hx : ∀ c ∈ x, isWsChar c = false) :
    (x == ' ' :: tail) = false := by
  apply beq_eq_false_iff_ne.mpr
  intro heq
  have hm : isWsChar ' ' = false := hx ' ' (by rw [heq]; simp)
  simp [isWsChar] at hm

lemma trimL_spaced (b : Str) (hb1 : b ≠ []) (hbw : ∀ c ∈ b, isWsChar c = false) :
    trimL (spTarget b) = b := by
  have h1 : (' ' :: (b ++ [' '])).dropWhile isWsChar = b ++ [' '] := by
    rw [List.dropWhile_cons, if_pos (show isWsChar ' ' = true by decide)]
    cases b with
    | nil => exact absurd rfl hb1
    | cons x bs =>
      rw [List.cons_append, List.dropWhile_cons,
        if_neg (by simp [hbw x (by simp)])]
  have h2 : (b ++ [' ']).reverse = ' ' :: b.reverse := by simp
  have h3 : (' ' :: b.reverse).dropWhile isWsChar = b.reverse := by
    rw [List.dropWhile_cons, if_pos (show isWsChar ' ' = true by decide)]
    cases hbr : b.reverse with
    | nil => rfl
    | cons x brs =>
      have hx : isWsChar x = false := hbw x (by
        rw [← List.mem_reverse, hbr]
        simp)
      rw [List.dropWhile_cons, if_neg (by simp [hx])]
  rw [trimL, spTarget, h1, h2, h3, List.reverse_reverse]

lemma spTarget_no_brace (b : Str) (hb2 : ∀ c ∈ b, c ≠ '\x7d') :
    ∀ c ∈ spTarget b, c ≠ '\x7d' := by
  intro c hc
  simp only [spTarget, List.mem_cons, List.mem_append, List.mem_singleton] at hc
  rcases hc with hsp | hb | hsp2 | hnil
  · rw [hsp]; decide
  · exact hb2 c hb
  · rw [hsp2]; decide
  · cases hnil

lemma sp_notFound_trace (a b : Str) (env : Env) (proj : ProjectR)
    (haw : ∀ c ∈ a, isWsChar c = false) (hbw : ∀ c ∈ b, isWsChar c = false)
    (hb2 : ∀ c ∈ b, c ≠ '\x7d') :
    ∀ n, expandLines [spRoot a b, hidTarget b] env proj (n + 1)
        (spRoot a b) [a] [dirLine (spTarget b)]
      = .error (.notFound (spTarget b) proj.name) := by
  intro n
  have hm : matchRunScript (dirLine (spTarget b)) = some (spTarget b) :=
    matchRunScript_dirLine (spTarget b) (by simp [spTarget]) (spTarget_no_brace b hb2)
  have hf : ([spRoot a b, hidTarget b]).find? (fun s => s.name == spTarget b) = none := by
    simp [spRoot, hidTarget, List.find?, spTarget, ne_spaced a _ haw, ne_spaced b _ hbw]
  rw [expandLines_dir_notFound _ _ _ _ _ _ _ _ _ hm hf]

lemma hid_service_trace (a b : Str) (env : Env) (proj : ProjectR)
    (hb1 : b ≠ []) (hb2 : ∀ c ∈ b, c ≠ '\x7d') (hab : a ≠ b) :
    ∀ n, expandLines [callerScript a b, hidTarget b] env proj (((n + 1) + 1) + 1)
        (callerScript a b) [a] [dirLine b]
      = .ok [echoLine] := by
  intro n
  have hmb : matchRunScript (dirLine b) = some b := matchRunScript_dirLine b hb1 hb2
  have hBA : (a == b) = false := beq_eq_false_iff_ne.mpr hab
  have hfB : ([callerScript a b, hidTarget b]).find? (fun s => s.name == b)
      = some (hidTarget b) := by
    simp [callerScript, hidTarget, List.find?, hBA]
  have hsub : (resolveVariables env proj echoLine).1 = echoLine :=
    congrArg Prod.fst (resolveVariables_unknown_only env proj echoLine (by decide))
  rw [expandLines_dir_ok _ _ _ _ _ _ _ _ _ _ hmb hfB
      (show termDisplay (callerScript a b).terminal = termDisplay (hidTarget b).terminal
        from rfl)
      (show memN (hidTarget b).name [a] = false by
        simp only [hidTarget, memN, beq_eq_false_iff_ne.mpr (Ne.symm hab), Bool.or_false])]
  rw [show normalizeBody (hidTarget b).body = [echoLine] from rfl,
    show [a] ++ [(hidTarget b).name] = [a, b] from rfl]
  rw [expandLines_plain _ _ _ _ _ _ _ _ (show matchRunScript echoLine = none by decide)]
  rw [hsub]
  rfl

lemma model_notFound_trace (a b : Str)
    (hb1 : b ≠ []) (hb2 : ∀ c ∈ b, c ≠ '\x7d') (hbw : ∀ c ∈ b, isWsChar c = false)
    (hab : a ≠ b) :
    ∀ n, expandScriptCalls [callerScript a b] (callerScript a b) ((n + 1) + 1)
        [dirLine b] []
      = .ok ([], [notFoundLogMsg b]) := by
  intro n
  have hmb : matchRunScript (dirLine b) = some b := matchRunScript_dirLine b hb1 hb2
  have htb : trimL b = b := trimL_id b hbw
  have hf : ([callerScript a b]).find? (fun s => s.name == trimL b) = none := by
    rw [htb]
    simp [callerScript, List.find?, beq_eq_false_iff_ne.mpr hab]
  rw [expandM_notFound _ _ _ _ _ _ _ hmb (show memN (trimL b) [] = false from rfl) hf]
  rw [htb]
  rfl

lemma model_trimmed_trace (a b : Str)
    (hb1 : b ≠ []) (hb2 : ∀ c ∈ b, c ≠ '\x7d')
    (hbw : ∀ c ∈ b, isWsChar c = false)
    (hab : a ≠ b) :
    ∀ n, expandScriptCalls [spRoot a b, hidTarget b] (spRoot a b) (((n + 1) + 1) + 1)
        [dirLine (spTarget b)] []
      = .ok ([echoLine], []) := by
  intro n
  have hm : matchRunScript (dirLine (spTarget b)) = some (spTarget b) :=
    matchRunScript_dirLine (spTarget b) (by simp [spTarget]) (spTarget_no_brace b hb2)
  have htr : trimL (spTarget b) = b := trimL_spaced b hb1 hbw
  have hf : ([spRoot a b, hidTarget b]).find? (fun s => s.name == trimL (spTarget b))
      = some (hidTarget b) := by
    rw [htr]
    simp [spRoot, hidTarget, List.find?, beq_eq_false_iff_ne.mpr hab]
  rw [expandM_dir_ok _ _ _ _ _ _ _ _ hm
      (show memN (trimL (spTarget b)) [] = false from rfl) hf
      (show termEff (spRoot a b).terminal = termEff (hidTarget b).terminal from rfl)]
  rw [show normalizeBody (hidTarget b).body = [echoLine] from rfl]
  rw [expandM_plain _ _ _ _ _ _ (show matchRunScript echoLine = none by decide)]
  rfl

/-- Claim C3: in the service resolver the captured directive name is used
verbatim — surrounding whitespace is not trimmed, so a spaced directive
fails lookup even when the target exists — and a missing name raises the
script-not-found error; lookup does include hidden scripts, which are
spliced normally.  In the model-layer expander the captured name is
trimmed before lookup (also over the full set including hidden scripts),
but a missing script is only logged and skipped, never an error. -/
theorem c3_directive_lookup_amended (a b : Str) (env : Env) (proj : ProjectR)
    (ha3 : ∀ c ∈ a, isWsChar c = false)
    (hb1 : b ≠ []) (hb2 : ∀ c ∈ b, c ≠ '\x7d') (hb3 : ∀ c ∈ b, isWsChar c = false)
    (hab : a ≠ b) :
    resolveScriptRun [spRoot a b, hidTarget b] env proj (spRoot a b)
        = .error (.notFound (spTarget b) proj.name)
    ∧ resolveScriptRun [callerScript a b, hidTarget b] env proj (callerScript a b)
        = .ok [echoLine]
    ∧ expandScriptCallsRun [callerScript a b] (callerScript a b)
        = .ok ([], [notFoundLogMsg b])
    ∧ expandScriptCallsRun [spRoot a b, hidTarget b] (spRoot a b)
        = .ok ([echoLine], []) := by
  refine ⟨?_, ?_, ?_, ?_⟩
  · show resolveScript _ env proj (fuelFor [spRoot a b, hidTarget b] (spRoot a b))
      (spRoot a b) [] = _
    rw [resolveScript_not_seen _ _ _ _ _ _
      (show memN (spRoot a b).name [] = false from rfl)]
    exact sp_notFound_trace a b env proj ha3 hb3 hb2 5
  · show resolveScript _ env proj (fuelFor [callerScript a b, hidTarget b] (callerScript a b))
      (callerScript a b) [] = _
    rw [resolveScript_not_seen _ _ _ _ _ _
      (show memN (callerScript a b).name [] = false from rfl)]
    exact hid_service_trace a b env proj hb1 hb2 hab 3
  · show expandScriptCalls [callerScript a b] (callerScript a b)
      (fuelFor [callerScript a b] (callerScript a b))
      (normalizeBody (callerScript a b).body) [] = _
    exact model_notFound_trace a b hb1 hb2 hb3 hab 2
  · show expandScriptCalls [spRoot a b, hidTarget b] (spRoot a b)
      (fuelFor [spRoot a b, hidTarget b] (spRoot a b))
      (normalizeBody (spRoot a b).body) [] = _
    exact model_trimmed_trace a b hb1 hb2 hb3 hab 3

/-- Witness for C3 at concrete scripts A and hidden B. -/
theorem c3_directive_lookup_witness :
    resolveScriptRun [spRoot ("A".toList) ("B".toList), hidTarget ("B".toList)]
        demoEnv demoProj (spRoot ("A".toList) ("B".toList))
        = .error (.notFound (spTarget ("B".toList)) ("Proj".toList))
    ∧ resolveScriptRun [callerScript ("A".toList) ("B".toList), hidTarget ("B".toList)]
        demoEnv demoProj (callerScript ("A".toList) ("B".toList))
        = .ok [echoLine]
    ∧ expandScriptCallsRun [callerScript ("A".toList) ("B".toList)]
        (callerScript ("A".toList) ("B".toList))
        = .ok ([], [notFoundLogMsg ("B".toList)])
    ∧ expandScriptCallsRun [spRoot ("A".toList) ("B".toList), hidTarget ("B".toList)]
        (spRoot ("A".toList) ("B".toList))
        = .ok ([echoLine], []) := by
  have h := c3_directive_lookup_amended ("A".toList) ("B".toList) demoEnv demoProj
    (by decide) (by decide) (by decide) (by decide) (by decide)
  exact h

/-- Counterexample to C3 as stated: with hidden script B present, the
service resolver fails to resolve a spaced directive because the captured
name is not trimmed, and the model-layer expander does not fail at all
when a directive names a missing script — it logs and skips. -/
theorem c3_directive_lookup_counterexample :
    resolveScriptRun [spRoot ("A".toList) ("B".toList), hidTarget ("B".toList)]
        demoEnv demoProj (spRoot ("A".toList) ("B".toList))
        = .error (.notFound (" B ".toList) ("Proj".toList))
    ∧ expandScriptCallsRun [callerScript ("A".toList) ("C".toList)]
        (callerScript ("A".toList) ("C".toList))
        = .ok ([], [notFoundLogMsg ("C".toList)]) := by
  refine ⟨by decide, by decide⟩

/-! ### Sink gating lemmas -/

lemma runSink_halt (lines : List Str) :
    ∀ (exit : Nat → Option Int) (k : Nat) (hk : k < lines.length),
      (∀ j, j < k → exit j = some 0) → exit k ≠ some 0 →
      runSink exit lines = (lines.take (k + 1), some (k, lines.get ⟨k, hk⟩, exit k)) := by
  induction lines with
  | nil =>
    intro exit k hk
    exact absurd hk (Nat.not_lt_zero _)
  | cons l rest ih =>
    intro exit k hk hprev hfail
    cases k with
    | zero =>
      simp only [runSink]
      rw [if_neg hfail]
      rfl
    | succ k =>
      have hzero : exit 0 = some 0 := hprev 0 (Nat.succ_pos _)
      simp only [runSink]
      rw [if_pos hzero]
      have hk2 : k < rest.length := Nat.lt_of_succ_lt_succ hk
      have ihr := ih (fun j => exit (j + 1)) k hk2
        (fun j hj => hprev (j + 1) (Nat.succ_lt_succ hj)) hfail
      rw [ihr]
      simp [List.take_succ_cons]

lemma runSink_all_ok (lines : List Str) :
    ∀ (exit : Nat → Option Int), (∀ j, j < lines.length → exit j = some 0) →
      runSink exit lines = (lines, none) := by
  induction lines with
  | nil => intro exit _; rfl
  | cons l rest ih =>
    intro exit hall
    simp only [runSink]
    rw [if_pos (hall 0 (Nat.succ_pos _))]
    rw [ih (fun j => exit (j + 1)) (fun j hj => hall (j + 1) (Nat.succ_lt_succ hj))]
    rfl

/-- Claim C6: with shell integration available, commands are sent one at a
time; a command whose reported exit code is nonzero or indeterminate halts
the batch — exactly the commands up to and including the failing one are
sent, and the failure index, line and code are reported — while a run of
all-zero exit codes sends every command and reports no failure. -/
theorem c6_sequential_halt_on_failure (lines : List Str) (exit : Nat → Option Int) :
    (∀ (k : Nat) (hk : k < lines.length), (∀ j, j < k → exit j = some 0) →
      exit k ≠ some 0 →
      runInTerminal true exit lines = (lines.take (k + 1), some (k, lines.get ⟨k, hk⟩, exit k)))
    ∧ ((∀ j, j < lines.length → exit j = some 0) →
      runInTerminal true exit lines = (lines, none)) := by
  constructor
  · intro k hk hprev hfail
    show runSink exit lines = _
    exact runSink_halt lines exit k hk hprev hfail
  · intro hall
    show runSink exit lines = _
    exact runSink_all_ok lines exit hall

/-- Witness for C6: the scenario where command 2 of 3 exits with code 1 —
the first two commands are sent, the third never is, and the outcome
reports the failure at index 1 (zero-based) with code 1; with all-zero
codes every command is sent. -/
theorem c6_sequential_halt_witness :
    runInTerminal true (fun j => if j = 1 then some 1 else some 0)
        ["cmd one".toList, "cmd two".toList, "cmd three".toList]
      = (["cmd one".toList, "cmd two".toList], some (1, "cmd two".toList, some 1))
    ∧ runInTerminal true (fun _ => some 0)
        ["cmd one".toList, "cmd two".toList, "cmd three".toList]
      = (["cmd one".toList, "cmd two".toList, "cmd three".toList], none) :=
  ⟨(c6_sequential_halt_on_failure _ _).1 1 (by decide)
      (by
        intro j hj
        have hj0 : j = 0 := by omega
        rw [hj0]
        rfl)
      (by decide),
    (c6_sequential_halt_on_failure _ _).2 (fun j _ => rfl)⟩

/-- Claim C7: the service orchestrator both logs and re-raises every fatal
failure — an expansion error is logged and returned as an expansion
failure, a command failure reported by the sink is logged and returned as
a command failure, and a clean run returns unit with only the start log —
whereas the model-layer `Script.execute` catches a thrown terminal
mismatch, logs the abort, and returns normally, absorbing the failure
instead of propagating it. -/
theorem c7_failure_reporting_amended (scripts : List ScriptR) (env : Env) (proj : ProjectR)
    (integ : Bool) (exit : Nat → Option Int) (root : ScriptR)
    (scriptsM : List ScriptR) (em : EnvM) (projOpt : Option ProjectR) (rootM : ScriptR) :
    (∀ e, resolveScriptRun scripts env proj root = .error e →
      executeService scripts env proj integ exit root
        = ([execStartMsg root.name proj.name, execFailMsg root.name (rerrMessage e)],
            .error (.expansion e)))
    ∧ (∀ cmds f, resolveScriptRun scripts env proj root = .ok cmds →
        (runInTerminal integ exit cmds).2 = some f →
        executeService scripts env proj integ exit root
          = ([execStartMsg root.name proj.name,
              execFailMsg root.name (cmdFailMsg f.2.1 f.2.2)],
              .error (.command f.1 f.2.1 f.2.2)))
    ∧ (∀ cmds, resolveScriptRun scripts env proj root = .ok cmds →
        (runInTerminal integ exit cmds).2 = none →
        executeService scripts env proj integ exit root
          = ([execStartMsg root.name proj.name], .ok ()))
    ∧ (expandScriptCallsRun scriptsM rootM = .error .mismatchM →
        executeModel scriptsM em projOpt rootM = ([abortMsg rootM.name], [], .ok ())) := by
  refine ⟨?_, ?_, ?_, ?_⟩
  · intro e he
    simp only [executeService, he]
  · intro cmds f hok hf
    simp only [executeService, hok, hf]
  · intro cmds hok hnone
    simp only [executeService, hok, hnone]
  · intro hmm
    simp only [executeModel, hmm]

/-- Witness for C7: a concrete terminal-mismatch pair is logged and
re-raised by the service orchestrator, and absorbed after logging by the
model-layer execute. -/
theorem c7_failure_reporting_witness :
    executeService [callerScript ("A".toList) ("B".toList), batchTarget ("B".toList)]
        demoEnv demoProj true (fun _ => some 0) (callerScript ("A".toList) ("B".toList))
      = ([execStartMsg ("A".toList) ("Proj".toList),
          execFailMsg ("A".toList) (rerrMessage
            (.mismatch ("A".toList) ("default".toList) ("B".toList) ("batch".toList)))],
          .error (.expansion
            (.mismatch ("A".toList) ("default".toList) ("B".toList) ("batch".toList))))
    ∧ executeModel [callerScript ("A".toList) ("B".toList), batchTarget ("B".toList)]
        demoEnvM (some demoProj) (callerScript ("A".toList) ("B".toList))
      = ([abortMsg ("A".toList)], [], .ok ()) :=
  ⟨(c7_failure_reporting_amended
      [callerScript ("A".toList) ("B".toList), batchTarget ("B".toList)]
      demoEnv demoProj true (fun _ => some 0) (callerScript ("A".toList) ("B".toList))
      [callerScript ("A".toList) ("B".toList), batchTarget ("B".toList)]
      demoEnvM (some demoProj) (callerScript ("A".toList) ("B".toList))).1
      (.mismatch ("A".toList) ("default".toList) ("B".toList) ("batch".toList)) (by decide),
    (c7_failure_reporting_amended
      [callerScript ("A".toList) ("B".toList), batchTarget ("B".toList)]
      demoEnv demoProj true (fun _ => some 0) (callerScript ("A".toList) ("B".toList))
      [callerScript ("A".toList) ("B".toList), batchTarget ("B".toList)]
      demoEnvM (some demoProj) (callerScript ("A".toList) ("B".toList))).2.2.2 (by decide)⟩

/-- Counterexample to C7 as stated: the model-layer execute returns a
normal completion even though its expansion threw the terminal-mismatch
error — the fatal failure is logged but not propagated to the invoker. -/
theorem c7_failure_reporting_counterexample :
    expandScriptCallsRun [callerScript ("A".toList) ("B".toList), batchTarget ("B".toList)]
        (callerScript ("A".toList) ("B".toList)) = .error .mismatchM
    ∧ (executeModel [callerScript ("A".toList) ("B".toList), batchTarget ("B".toList)]
        demoEnvM (some demoProj) (callerScript ("A".toList) ("B".toList))).2.2 = .ok () := by
  refine ⟨by decide, by decide⟩

/-- Claim C8: variable substitution is the identity on any line all of
whose scanned placeholder names are outside the variable table — each
unresolved placeholder is kept literally and produces exactly one logged
warning — and in particular a line with no placeholder match at all
round-trips unchanged with no warning. -/
theorem c8_substitution_identity (env : Env) (proj : ProjectR) (l : Str)
    (h : ∀ nm ∈ scanVarNames isVarCharS l.length l, isKnownS nm = false) :
    resolveVariables env proj l = (l, (scanVarNames isVarCharS l.length l).map warnVarMsg) :=
  resolveVariables_unknown_only env proj l h

/-- Witness for C8: a line with the unknown placeholder FOO round-trips
unchanged with one warning, and a placeholder-free line round-trips with
none. -/
theorem c8_substitution_identity_witness :
    resolveVariables demoEnv demoProj ("echo \x7b\x7bFOO\x7d\x7d done".toList)
        = ("echo \x7b\x7bFOO\x7d\x7d done".toList, [warnVarMsg ("FOO".toList)])
    ∧ resolveVariables demoEnv demoProj ("npm run start".toList)
        = ("npm run start".toList, []) :=
  ⟨c8_substitution_identity demoEnv demoProj ("echo \x7b\x7bFOO\x7d\x7d done".toList) (by decide),
    c8_substitution_identity demoEnv demoProj ("npm run start".toList) (by decide)⟩

lemma slashify_ne_bs (c : Char) : slashify c ≠ '\\' := by
  rw [slashify]
  by_cases h : c = '\\'
  · rw [if_pos h]; decide
  · rw [if_neg h]; exact h

lemma no_backslash_after (p : Str) : '\\' ∉ p.map slashify := by
  intro hm
  obtain ⟨c, -, hc⟩ := List.mem_map.mp hm
  exact slashify_ne_bs c hc

/-- Claim C9: the service resolver maps each of its six recognized names
to the corresponding project-derived path passed through `getSafePath`,
which yields the empty string for an absent field and otherwise the path
with every backslash replaced by a forward slash (no backslash remains);
the model-layer resolver diverges: it returns the raw project path
without separator normalization and falls back to the literal placeholder
token — not the empty string — when the project or field is absent. -/
theorem c9_safe_paths_amended (env : Env) (proj : ProjectR) (em : EnvM)
    (projM : ProjectR) (p : Str) :
    resolveVarS env proj ("PROJECT_PATH".toList) = (getSafePath (some proj.path), [])
    ∧ resolveVarS env proj ("PRODASH_PATH".toList) = (getSafePath proj.proDashPath, [])
    ∧ resolveVarS env proj ("GLOBALCONFIG_PATH".toList)
        = (getSafePath (some env.globalConfigPath), [])
    ∧ resolveVarS env proj ("DESCRIPTION_FILE".toList) = (getSafePath proj.descriptionFile, [])
    ∧ resolveVarS env proj ("LONGDESCRIPTION_FILE".toList)
        = (getSafePath proj.longDescriptionFile, [])
    ∧ resolveVarS env proj ("FULLDESCRIPTION_FILE".toList)
        = (getSafePath proj.fullDescriptionFile, [])
    ∧ getSafePath none = []
    ∧ getSafePath (some p) = p.map slashify
    ∧ '\\' ∉ getSafePath (some p)
    ∧ (projM.proDashPath = none →
        resolveVarM em (some projM) ("PRODASH_PATH".toList)
          = (fallbackToken ("PRODASH_PATH".toList), []))
    ∧ resolveVarM em (some projM) ("PROJECT_PATH".toList) = (projM.path, []) := by
  refine ⟨rfl, rfl, rfl, rfl, rfl, rfl, rfl, rfl, no_backslash_after p, ?_, rfl⟩
  intro h
  simp [resolveVarM, h]

/-- Witness for C9 at a concrete project with a backslashed path and no
dashboard directory. -/
theorem c9_safe_paths_witness :
    resolveVarS demoEnv demoProj ("PROJECT_PATH".toList) = ("C:/work/proj".toList, [])
    ∧ resolveVarS demoEnv demoProj ("PRODASH_PATH".toList) = ([], [])
    ∧ resolveVarM demoEnvM (some demoProj) ("PRODASH_PATH".toList)
        = (fallbackToken ("PRODASH_PATH".toList), []) := by
  have h := c9_safe_paths_amended demoEnv demoProj demoEnvM demoProj ("C:\\work\\proj".toList)
  refine ⟨?_, ?_, h.2.2.2.2.2.2.2.2.2.1 rfl⟩
  · rw [h.1]; decide
  · rw [h.2.1]; decide

/-- Counterexample to C9 as stated: the model-layer resolver returns the
literal placeholder token — not the empty string — when the dashboard
directory is absent, and returns the project path with its backslashes
intact rather than normalized to forward slashes. -/
theorem c9_safe_paths_counterexample :
    resolveVarM demoEnvM (some demoProj) ("PRODASH_PATH".toList)
        = ("\x7b\x7bPRODASH_PATH\x7d\x7d".toList, [])
    ∧ "\x7b\x7bPRODASH_PATH\x7d\x7d".toList ≠ ([] : Str)
    ∧ resolveVarM demoEnvM (some demoProj) ("PROJECT_PATH".toList)
        = ("C:\\work\\proj".toList, [])
    ∧ '\\' ∈ ("C:\\work\\proj".toList : Str) := by
  refine ⟨by decide, by decide, by decide, by decide⟩

/-- Claim C10: every non-powershell terminal kind — batch, the blank kind
and the undefined kind alike — resolves to the single shared runner name,
so terminal selection is identical for any two such kinds over any set of
existing terminals; only the powershell kind uses a different, dedicated
name. -/
theorem c10_shared_runner_target (existing : List TermInfo) (t1 t2 : Option TK)
    (h1 : t1 ≠ some TK.powershell) (h2 : t2 ≠ some TK.powershell) :
    terminalNameFor t1 = "ProDash Runner".toList
    ∧ getTerminal existing t1 = getTerminal existing t2
    ∧ terminalNameFor (some TK.powershell) ≠ terminalNameFor t1 := by
  have hn1 : terminalNameFor t1 = "ProDash Runner".toList := by
    rw [terminalNameFor, if_neg h1]
  have hn2 : terminalNameFor t2 = "ProDash Runner".toList := by
    rw [terminalNameFor, if_neg h2]
  refine ⟨hn1, ?_, ?_⟩
  · simp only [getTerminal, hn1, hn2]
  · rw [hn1, terminalNameFor, if_pos rfl]
    decide

/-- Witness for C10: with one live runner terminal, the batch kind and the
undefined kind select the same existing target. -/
theorem c10_shared_runner_witness :
    terminalNameFor (some TK.batch) = "ProDash Runner".toList
    ∧ getTerminal [{ name := "ProDash Runner".toList, exited := false }] (some TK.batch)
        = getTerminal [{ name := "ProDash Runner".toList, exited := false }] none
    ∧ terminalNameFor (some TK.powershell) ≠ terminalNameFor (some TK.batch)
    ∧ getTerminal [{ name := "ProDash Runner".toList, exited := false }] (some TK.batch)
        = .reuse { name := "ProDash Runner".toList, exited := false } :=
  ⟨(c10_shared_runner_target [{ name := "ProDash Runner".toList, exited := false }]
      (some TK.batch) none (by decide) (by decide)).1,
    (c10_shared_runner_target [{ name := "ProDash Runner".toList, exited := false }]
      (some TK.batch) none (by decide) (by decide)).2.1,
    (c10_shared_runner_target [{ name := "ProDash Runner".toList, exited := false }]
      (some TK.batch) none (by decide) (by decide)).2.2,
    by decide⟩
